/-
Verification of the mq repository core (session store and batch dispatcher).

The Python sources (src/mq/cli.py, src/mq/store.py) are shallowly embedded:
JSON values become an inductive type, rows become ordered association lists
(mirroring Python dict insertion order), the filesystem that the session
store manipulates becomes an explicit state record, and the thread-pool
dispatcher becomes a fold over an arbitrary completion order together with
the "insert and drain" reassembly step.  Fallible operations return Except.
-/
import Mathlib

namespace MQ

/-! ## JSON values and rows -/

/-- JSON values, as produced by Python json.loads.  Objects keep key order. -/
inductive JVal where
  | jnull
  | jbool (b : Bool)
  | jnum (n : Int)
  | jstr (s : String)
  | jarr (xs : List JVal)
  | jobj (fields : List (String × JVal))
deriving Repr

/-- A batch row / JSON object body: ordered mapping from string keys to values,
    mirroring a Python dict (insertion ordered, unique keys). -/
abbrev Row := List (String × JVal)

/-- Key lookup in a row, like Python dict.get (first matching key). -/
def rowGet (row : Row) (k : String) : Option JVal :=
  match row with
  | [] => none
  | (k2, v) :: rest => if k2 = k then some v else rowGet rest k

/-- Key membership in a row, like Python `k in row`. -/
def rowHas (row : Row) (k : String) : Bool :=
  (rowGet row k).isSome

/-- Python dict assignment `row[k] = v`: replace in place if the key exists,
    otherwise append at the end (insertion order). -/
def dictSet (row : Row) (k : String) (v : JVal) : Row :=
  match row with
  | [] => [(k, v)]
  | (k2, v2) :: rest =>
      if k2 = k then (k2, v) :: rest else (k2, v2) :: dictSet rest k v

theorem rowGet_dictSet_self (row : Row) (k : String) (v : JVal) :
    rowGet (dictSet row k v) k = some v := by
  induction row with
  | nil => simp [dictSet, rowGet]
  | cons p rest ih =>
      obtain ⟨k2, v2⟩ := p
      by_cases h : k2 = k <;> simp [dictSet, rowGet, h, ih]

theorem rowGet_dictSet_ne (row : Row) {k k2 : String} (v : JVal) (h : k2 ≠ k) :
    rowGet (dictSet row k v) k2 = rowGet row k2 := by
  have h2 : ¬ (k = k2) := fun hh => h hh.symm
  induction row with
  | nil => simp [dictSet, rowGet, h2]
  | cons p rest ih =>
      obtain ⟨ka, va⟩ := p
      by_cases hk : ka = k
      · subst hk
        simp [dictSet, rowGet, h2]
      · simp [dictSet, rowGet, hk, ih]

theorem rowHas_dictSet (row : Row) (k k2 : String) (v : JVal) :
    rowHas (dictSet row k v) k2 = (rowHas row k2 || decide (k2 = k)) := by
  by_cases h : k2 = k
  · subst h
    simp [rowHas, rowGet_dictSet_self]
  · simp [rowHas, rowGet_dictSet_ne row v h, h]

theorem rowHas_iff_mem_keys (row : Row) (k : String) :
    rowHas row k = true ↔ k ∈ row.map Prod.fst := by
  induction row with
  | nil => simp [rowHas, rowGet]
  | cons p rest ih =>
      obtain ⟨k2, v⟩ := p
      by_cases h : k2 = k
      · subst h
        simp [rowHas, rowGet]
      · have h2 : ¬ (k = k2) := fun hh => h hh.symm
        simp [rowHas, rowGet, h, h2] at ih ⊢
        exact ih

/-! ## String helpers (Python str.strip / str.rstrip / startswith / endswith) -/

/-- Python str.lstrip() on a character list. -/
def lstripChars (l : List Char) : List Char := l.dropWhile Char.isWhitespace

/-- Python str.rstrip() on a character list. -/
def rstripChars (l : List Char) : List Char :=
  (l.reverse.dropWhile Char.isWhitespace).reverse

/-- Python str.strip(). -/
def stripStr (s : String) : String := ⟨rstripChars (lstripChars s.toList)⟩

/-- Python str.rstrip(). -/
def rstripStr (s : String) : String := ⟨rstripChars s.toList⟩

/-- Boolean list-prefix test (used to model str.startswith on char lists). -/
def listStarts : List Char → List Char → Bool
  | [], _ => true
  | _ :: _, [] => false
  | a :: asx, b :: bs => decide (a = b) && listStarts asx bs

/-- Python s.startswith(pre). -/
def strStarts (s pre : String) : Bool := listStarts pre.toList s.toList

/-- Python s.endswith(suf). -/
def strEnds (s suf : String) : Bool := listStarts suf.toList.reverse s.toList.reverse

theorem listStarts_append (pre rest : List Char) :
    listStarts pre (pre ++ rest) = true := by
  induction pre with
  | nil => simp [listStarts]
  | cons a asx ih => simp [listStarts, ih]

theorem strStarts_append (pre rest : String) :
    strStarts (pre ++ rest) pre = true := by
  have h : (pre ++ rest).toList = pre.toList ++ rest.toList := String.data_append pre rest
  simp [strStarts, h, listStarts_append]

/-! ## Tag extraction (cli.py `_extract_tags` and the regex _TAG_RE)

The Python regex is `<([A-Za-z0-9_.:-]+)>(.*?)</\1>` with DOTALL, scanned by
finditer: left to right, at each position the tag name is the maximal run of
tag characters after `<` (it must be nonempty and be followed by `>`), and the
lazy body ends at the first subsequent occurrence of `</name>`.  On a failed
match the scan advances one character; after a successful match it resumes
after the closing tag.  The scanner below is fueled by the input length so
that it stays structurally recursive; one character is consumed per step, so
fuel = length is always sufficient. -/

/-- Characters permitted in a tag name: `[A-Za-z0-9_.:-]`. -/
def isTagChar (c : Char) : Bool :=
  c.isAlpha || c.isDigit || decide (c = '_') || decide (c = '.') ||
    decide (c = ':') || decide (c = '-')

/-- Split a character list at the first occurrence of `pat`, returning the part
    before it and the part after it. -/
def splitOnFirst (pat : List Char) : List Char → Option (List Char × List Char)
  | [] => if pat.isEmpty then some ([], []) else none
  | c :: rest =>
      if listStarts pat (c :: rest) then some ([], (c :: rest).drop pat.length)
      else
        match splitOnFirst pat rest with
        | some (pre, post) => some (c :: pre, post)
        | none => none

theorem splitOnFirst_post_length (pat : List Char) (hpat : pat ≠ []) :
    ∀ (l pre post : List Char), splitOnFirst pat l = some (pre, post) →
      post.length < l.length := by
  intro l
  induction l with
  | nil =>
      intro pre post h
      simp [splitOnFirst, List.isEmpty_iff, hpat] at h
  | cons c rest ih =>
      intro pre post h
      simp only [splitOnFirst] at h
      by_cases hs : listStarts pat (c :: rest) = true
      · simp [hs] at h
        obtain ⟨-, h2⟩ := h
        have hlen : 1 ≤ pat.length := by
          cases pat with
          | nil => exact absurd rfl hpat
          | cons a b => simp
        calc post.length = ((c :: rest).drop pat.length).length := by rw [h2]
          _ = (c :: rest).length - pat.length := by simp
          _ < (c :: rest).length := by
              simp only [List.length_cons]
              omega
      · simp [hs] at h
        cases hsp : splitOnFirst pat rest with
        | none => simp [hsp] at h
        | some pr =>
            obtain ⟨pre2, post2⟩ := pr
            simp [hsp] at h
            obtain ⟨-, h2⟩ := h
            have := ih pre2 post2 hsp
            subst h2
            simp only [List.length_cons]
            omega

/-- One finditer step at the current position, fueled by the input length.
    Returns the (name, raw value) matches in order of appearance. -/
def scanTagsAux : Nat → List Char → List (String × String)
  | 0, _ => []
  | _, [] => []
  | fuel + 1, c :: rest =>
      if c = '<' then
        let run := rest.takeWhile isTagChar
        match run, rest.drop run.length with
        | [], _ => scanTagsAux fuel rest
        | _ :: _, '>' :: body =>
            match splitOnFirst ('<' :: '/' :: (run ++ ['>'])) body with
            | some (value, after) =>
                (⟨run⟩, ⟨value⟩) :: scanTagsAux fuel after
            | none => scanTagsAux fuel rest
        | _ :: _, _ => scanTagsAux fuel rest
      else scanTagsAux fuel rest

/-- All non-overlapping matches of the tag regex in scan order. -/
def scanTags (text : String) : List (String × String) :=
  scanTagsAux text.toList.length text.toList

/-- `extracted.setdefault(name, []).append(value)` for one match. -/
def addMatch (acc : List (String × List String)) (nv : String × String) :
    List (String × List String) :=
  if acc.any (fun e => e.1 = nv.1) then
    acc.map (fun e => if e.1 = nv.1 then (e.1, e.2 ++ [nv.2]) else e)
  else acc ++ [(nv.1, [nv.2])]

/-- Group values by tag name over the match list, keeping first-appearance
    order of names and appearance order of values. -/
def groupMatches (ms : List (String × String)) : List (String × List String) :=
  ms.foldl addMatch []

/-- One output entry of `_extract_tags`: a single value stays a string,
    several values become a list. -/
def tagEntry (e : String × List String) : String × JVal :=
  match e.2 with
  | [v] => ("tag:" ++ e.1, JVal.jstr v)
  | vs => ("tag:" ++ e.1, JVal.jarr (vs.map JVal.jstr))

/-- cli.py `_extract_tags`: tag-name groups become `tag:<name>` keys; values
    are stripped per match. -/
def extract_tags (text : String) : Row :=
  (groupMatches ((scanTags text).map (fun nv => (nv.1, stripStr nv.2)))).map tagEntry

/-! ## Prompt prefixing (cli.py `_format_attachment` and its prompt-prefix helper) -/

/-- cli.py `_format_attachment`. -/
def format_attachment (name content : String) : String :=
  let name2 := if name = "" then "attachment" else name
  "--- BEGIN ATTACHMENT: " ++ name2 ++ " ---\n" ++ rstripStr content ++
    "\n--- END ATTACHMENT: " ++ name2 ++ " ---"

/-- cli.py `_apply_prompt_prefix` (renamed with a -ed suffix here). -/
def apply_prompt_prefixed (prompt : String) (pre : Option String) : String :=
  match pre with
  | none => prompt
  | some p =>
      if stripStr p = "" then prompt
      else rstripStr (rstripStr p ++ "\n\n" ++ format_attachment "input.prompt" prompt)

/-! ## Batch row processing (cli.py `_cmd_batch` and its inner `process_row`)

The external request function (`chat`) is an oracle: per row it either
returns content and optional reasoning, or fails.  `LLMError` carries a
structured error_info dict; other `MQError`s and generic exceptions carry only
a message.  `UserError` merge conflicts are the only errors process_row
propagates; they are represented by `RowFatal`. -/

/-- Outcome of the external request function for one row. -/
inductive ChatRes where
  | ok (content : String) (reasoning : Option String)
  | llmErr (msg : String) (info : List (String × JVal))
  | mqErr (msg : String)
  | exc (excName : String) (msg : String)

/-- The fatal `UserError` merge conflicts raised by the batch path. -/
inductive RowFatal where
  | reservedKey (lineNo : Nat) (key : String)
  | reservedPre (lineNo : Nat) (pre : String) (key : String)
  | extractedKey (lineNo : Nat) (key : String)
deriving Repr, DecidableEq

/-- The message text of each fatal error (Python repr quoting of the key is
    elided; the wording is otherwise that of cli.py). -/
def fatalMessage : RowFatal → String
  | .reservedKey ln k =>
      "Batch merge conflict on line " ++ toString ln ++
        ": input contains reserved key " ++ k
  | .reservedPre ln p k =>
      "Batch merge conflict on line " ++ toString ln ++
        ": input contains reserved key prefix " ++ p ++ " (" ++ k ++ ")"
  | .extractedKey ln k =>
      "Batch merge conflict on line " ++ toString ln ++
        ": extracted key " ++ k ++ " already exists"

/-- cli.py `reserved_output_keys`.  The Python value is a set literal whose
    iteration order is unspecified; it is modelled in the written order.
    Which reserved key is named in the error can depend on that order, but
    whether a conflict is detected cannot. -/
def reserved_output_keys : List String :=
  ["response", "reasoning", "sysprompt", "error", "error_info", "mq_input_prompt"]

/-- Configuration of one batch run (the parts of `args` process_row reads). -/
structure BatchCfg where
  extractTags : Bool
  sysprompt : Option String
  promptPre : Option String

/-- First reserved output key present in a row, if any. -/
def findReservedKey (row : Row) : Option String :=
  reserved_output_keys.find? (fun k => rowHas row k)

/-- First row key carrying the reserved `tag:` namespace, when tag extraction
    is enabled. -/
def findPrefixedKey (cfg : BatchCfg) (row : Row) : Option String :=
  if cfg.extractTags then (row.map Prod.fst).find? (fun k => strStarts k "tag:")
  else none

/-- Result of one row that did not raise a fatal conflict. -/
structure RowOutcome where
  out : Row
  errored : Bool
  requested : Bool
deriving Repr

/-- Whether a row carries the required string `prompt` field. -/
def promptOk (row : Row) : Bool :=
  match rowGet row "prompt" with
  | some (JVal.jstr _) => true
  | _ => false

/-- The output row of `process_row` before the chat result is merged: the
    input row plus `mq_input_prompt`, the final `prompt`, and `sysprompt`
    when one is set and non-blank. -/
def outBase (cfg : BatchCfg) (row : Row) (promptVal : String) : Row :=
  let out1 := dictSet (dictSet row "mq_input_prompt" (JVal.jstr promptVal))
    "prompt" (JVal.jstr (apply_prompt_prefixed promptVal cfg.promptPre))
  match cfg.sysprompt with
  | some sp => if stripStr sp ≠ "" then dictSet out1 "sysprompt" (JVal.jstr sp) else out1
  | none => out1

/-- The output row after a successful chat call: `response` plus `reasoning`
    when present and non-blank. -/
def outResponse (cfg : BatchCfg) (row : Row) (promptVal content : String)
    (reasoning : Option String) : Row :=
  let out3 := dictSet (outBase cfg row promptVal) "response" (JVal.jstr content)
  match reasoning with
  | some r => if stripStr r ≠ "" then dictSet out3 "reasoning" (JVal.jstr r) else out3
  | none => out3

/-- cli.py `process_row` (the body run by each worker), with the chat call
    abstracted by `res`. -/
def process_row (cfg : BatchCfg) (lineNo : Nat) (row : Row) (res : ChatRes) :
    Except RowFatal RowOutcome :=
  match rowGet row "prompt" with
  | some (JVal.jstr promptVal) =>
      match findReservedKey row with
      | some k => .error (.reservedKey lineNo k)
      | none =>
      match findPrefixedKey cfg row with
      | some k => .error (.reservedPre lineNo "tag:" k)
      | none =>
        match res with
        | .ok content reasoning =>
            if cfg.extractTags then
              let extracted := extract_tags content
              match (extracted.map Prod.fst).find?
                  (fun k => rowHas (outResponse cfg row promptVal content reasoning) k) with
              | some k => .error (.extractedKey lineNo k)
              | none =>
                  .ok ⟨extracted.foldl (fun o kv => dictSet o kv.1 kv.2)
                    (outResponse cfg row promptVal content reasoning), false, true⟩
            else .ok ⟨outResponse cfg row promptVal content reasoning, false, true⟩
        | .llmErr msg info =>
            let out3 := dictSet (outBase cfg row promptVal) "error" (JVal.jstr msg)
            .ok ⟨if info.isEmpty then out3 else dictSet out3 "error_info" (JVal.jobj info),
              true, true⟩
        | .mqErr msg =>
            .ok ⟨dictSet (outBase cfg row promptVal) "error" (JVal.jstr msg), true, true⟩
        | .exc n msg =>
            .ok ⟨dictSet (outBase cfg row promptVal) "error" (JVal.jstr (n ++ ": " ++ msg)),
              true, true⟩
  | _ =>
      .ok ⟨dictSet row "error" (JVal.jstr "Row is missing required string field: prompt"),
        true, false⟩

/-- The reserved-key scan of `_cmd_batch` applied to one row. -/
def rowPreflight (cfg : BatchCfg) (lr : Nat × Row) : Option RowFatal :=
  match findReservedKey lr.2 with
  | some k => some (.reservedKey lr.1 k)
  | none =>
      match findPrefixedKey cfg lr.2 with
      | some k => some (.reservedPre lr.1 "tag:" k)
      | none => none

/-- The pre-flight reserved-key scan of `_cmd_batch` (run before any request):
    first conflicting row in input order, if any. -/
def preflight (cfg : BatchCfg) (rows : List (Nat × Row)) : Option RowFatal :=
  rows.findSome? (rowPreflight cfg)

/-- Sequence row results, stopping at the first fatal conflict. -/
def collectRows : List (Except RowFatal RowOutcome) → Except RowFatal (List RowOutcome)
  | [] => .ok []
  | .error f :: _ => .error f
  | .ok r :: rest => (collectRows rest).map (fun rs => r :: rs)

/-- Observable outcome of a whole `mq batch` run.  `installed` is the content
    of the output file atomically installed at the destination (`none` when the
    run aborted and the temporary file was discarded); `exit` is the process
    exit status (`main` maps an uncaught MQError to 2); `requests` counts chat
    calls.  After an in-flight fatal conflict the number of chat calls is
    timing-dependent in the threaded original; it is modelled as the calls
    made by rows preceding the conflict in input order.  No claim depends on
    that case. -/
structure BatchResult where
  fatal : Option RowFatal
  installed : Option (List Row)
  requests : Nat
  exit : Nat
deriving Repr

/-- cli.py `_cmd_batch` after input parsing: pre-flight scan, fan-out of
    `process_row` over all rows, ordered reassembly, atomic install of the
    output on a fully successful pass, exit status 1 when any row recorded a
    per-row error.  `oracle i` is the chat outcome for the row at input
    position `i` (0-based). -/
def cmd_batch (cfg : BatchCfg) (rows : List (Nat × Row)) (oracle : Nat → ChatRes) :
    BatchResult :=
  match preflight cfg rows with
  | some f => ⟨some f, none, 0, 2⟩
  | none =>
      let processed := rows.enum.map (fun p => process_row cfg p.2.1 p.2.2 (oracle p.1))
      match collectRows processed with
      | .error f =>
          let okPre := processed.takeWhile (fun r => r.isOk)
          ⟨some f, none,
            (okPre.filterMap (fun r => r.toOption)).countP (fun r => r.requested), 2⟩
      | .ok outs =>
          ⟨none, some (outs.map (fun r => r.out)),
            (outs.filter (fun r => r.requested)).length,
            if outs.any (fun r => r.errored) then 1 else 0⟩

/-! ## Ordered reassembly (cli.py `_cmd_batch` lines 637-654)

The holding map `results`, the counter `next_idx` and the drain loop
`while next_idx in results: write results.pop(next_idx)` are modelled
explicitly.  Workers finish in an arbitrary order, represented by the list of
row indices in completion order; each completion inserts its rendered line and
drains.  The drain loop is fueled by the map size (each iteration pops one
entry, so that fuel always suffices). -/

/-- The holding map from row index to rendered output line. -/
abbrev HMap := List (Nat × String)

/-- Lookup in the holding map (`results[i]`). -/
def lookupKey (i : Nat) : HMap → Option String
  | [] => none
  | p :: rest => if p.1 = i then some p.2 else lookupKey i rest

/-- Removal from the holding map (`results.pop(i)`). -/
def eraseKey (i : Nat) : HMap → HMap
  | [] => []
  | p :: rest => if p.1 = i then rest else p :: eraseKey i rest

/-- Dispatcher state: holding map, next index to emit, lines written so far. -/
structure DispatchState where
  m : HMap
  next : Nat
  out : List String

/-- The drain loop: emit consecutive indices while they are present. -/
def drainAux : Nat → DispatchState → DispatchState
  | 0, st => st
  | fuel + 1, st =>
      match lookupKey st.next st.m with
      | some line => drainAux fuel ⟨eraseKey st.next st.m, st.next + 1, st.out ++ [line]⟩
      | none => st

/-- Insert the completed row `idx` and drain (`results[idx] = line` followed by
    the while loop), executed under the completion callback. -/
def dispatchStep (render : Nat → String) (st : DispatchState) (idx : Nat) : DispatchState :=
  let m2 := (idx, render idx) :: st.m
  drainAux m2.length ⟨m2, st.next, st.out⟩

/-- Whole dispatcher run: rows are rendered by `render`, workers complete in
    the order given by `order` (a permutation of the row indices), and the
    output stream is the emitted lines.  `W` is the worker-pool size; it
    bounds concurrency but does not constrain the completion order, which is
    quantified separately. -/
def runDispatch (_W : Nat) (render : Nat → String) (order : List Nat) : List String :=
  (order.foldl (dispatchStep render) ⟨[], 0, []⟩).out

theorem lookupKey_none_iff (i : Nat) (m : HMap) :
    lookupKey i m = none ↔ i ∉ m.map Prod.fst := by
  induction m with
  | nil => simp [lookupKey]
  | cons p rest ih =>
      by_cases h : p.1 = i
      · subst h
        simp [lookupKey]
      · have h2 : ¬ (i = p.1) := fun hh => h hh.symm
        simp [lookupKey, h, h2, ih]

theorem eraseKey_sublist (i : Nat) (m : HMap) : (eraseKey i m).Sublist m := by
  induction m with
  | nil => simp [eraseKey]
  | cons p rest ih =>
      by_cases h : p.1 = i
      · rw [show eraseKey i (p :: rest) = rest by simp [eraseKey, h]]
        exact List.sublist_cons_self p rest
      · rw [show eraseKey i (p :: rest) = p :: eraseKey i rest by simp [eraseKey, h]]
        exact List.Sublist.cons₂ p ih

theorem eraseKey_length (i : Nat) (m : HMap) (h : (lookupKey i m).isSome) :
    (eraseKey i m).length + 1 = m.length := by
  induction m with
  | nil => simp [lookupKey] at h
  | cons p rest ih =>
      by_cases hp : p.1 = i
      · simp [eraseKey, hp]
      · simp only [lookupKey, hp, if_false] at h
        rw [show eraseKey i (p :: rest) = p :: eraseKey i rest by simp [eraseKey, hp]]
        simp [ih h]

theorem lookupKey_eraseKey_self (i : Nat) (m : HMap)
    (h : (m.map Prod.fst).Nodup) : lookupKey i (eraseKey i m) = none := by
  induction m with
  | nil => simp [eraseKey, lookupKey]
  | cons p rest ih =>
      simp only [List.map_cons, List.nodup_cons] at h
      by_cases hp : p.1 = i
      · rw [show eraseKey i (p :: rest) = rest by simp [eraseKey, hp]]
        rw [lookupKey_none_iff, ← hp]
        exact h.1
      · rw [show eraseKey i (p :: rest) = p :: eraseKey i rest by simp [eraseKey, hp]]
        simp [lookupKey, hp, ih h.2]

theorem lookupKey_eraseKey_ne {i j : Nat} (m : HMap) (h : j ≠ i) :
    lookupKey j (eraseKey i m) = lookupKey j m := by
  induction m with
  | nil => simp [eraseKey]
  | cons p rest ih =>
      by_cases hp : p.1 = i
      · have h2 : ¬ (p.1 = j) := by
          rw [hp]
          exact fun hh => h hh.symm
        rw [show eraseKey i (p :: rest) = rest by simp [eraseKey, hp]]
        simp [lookupKey, h2]
      · rw [show eraseKey i (p :: rest) = p :: eraseKey i rest by simp [eraseKey, hp]]
        by_cases hj : p.1 = j <;> simp [lookupKey, hj, ih]

/-- The reassembly invariant: keys of the holding map are exactly the
    completed indices not yet emitted, their lines are the rendered rows, every
    index below the counter has completed, and the output stream is the
    rendered prefix below the counter. -/
def DInv (render : Nat → String) (inS : Nat → Bool) (st : DispatchState) : Prop :=
  (st.m.map Prod.fst).Nodup ∧
  (∀ i, lookupKey i st.m =
    if inS i = true ∧ st.next ≤ i then some (render i) else none) ∧
  (∀ i, i < st.next → inS i = true) ∧
  st.out = (List.range st.next).map render

theorem drainAux_inv (render : Nat → String) (inS : Nat → Bool) :
    ∀ (fuel : Nat) (st : DispatchState), st.m.length ≤ fuel →
      DInv render inS st →
      DInv render inS (drainAux fuel st) ∧
        lookupKey (drainAux fuel st).next (drainAux fuel st).m = none := by
  intro fuel
  induction fuel with
  | zero =>
      intro st hlen hinv
      have hm : st.m = [] := List.length_eq_zero.mp (Nat.le_zero.mp hlen)
      refine ⟨hinv, ?_⟩
      simp [drainAux, hm, lookupKey]
  | succ fuel ih =>
      intro st hlen hinv
      obtain ⟨hnd, hlk, hlow, hout⟩ := hinv
      cases hcase : lookupKey st.next st.m with
      | none =>
          have hval : drainAux (fuel + 1) st = st := by
            simp [drainAux, hcase]
          rw [hval]
          exact ⟨⟨hnd, hlk, hlow, hout⟩, hcase⟩
      | some line =>
          have hchar := hlk st.next
          rw [hcase] at hchar
          by_cases hc : inS st.next = true ∧ st.next ≤ st.next
          · rw [if_pos hc] at hchar
            have hline : line = render st.next := Option.some.inj hchar
            have hnext : inS st.next = true := hc.1
            have hlen2 : (eraseKey st.next st.m).length ≤ fuel := by
              have he := eraseKey_length st.next st.m (by simp [hcase])
              omega
            have hnd2 : ((eraseKey st.next st.m).map Prod.fst).Nodup :=
              ((eraseKey_sublist st.next st.m).map Prod.fst).nodup hnd
            have hlk2 : ∀ i, lookupKey i (eraseKey st.next st.m) =
                if inS i = true ∧ st.next + 1 ≤ i then some (render i) else none := by
              intro i
              by_cases hi : i = st.next
              · rw [hi, lookupKey_eraseKey_self st.next st.m hnd]
                rw [if_neg (by
                  rintro ⟨-, hcon⟩
                  omega)]
              · rw [lookupKey_eraseKey_ne st.m hi, hlk i]
                by_cases hin : inS i = true
                · by_cases hle : st.next ≤ i
                  · rw [if_pos ⟨hin, hle⟩, if_pos ⟨hin, by omega⟩]
                  · rw [if_neg (by tauto), if_neg (by
                      rintro ⟨-, hge⟩
                      omega)]
                · rw [if_neg (by tauto), if_neg (by tauto)]
            have hlow2 : ∀ i, i < st.next + 1 → inS i = true := by
              intro i hi
              by_cases he : i = st.next
              · rw [he]; exact hnext
              · exact hlow i (by omega)
            have hout2 : st.out ++ [line] = (List.range (st.next + 1)).map render := by
              rw [hout, hline, List.range_succ, List.map_append, List.map_cons, List.map_nil]
            have hstep : drainAux (fuel + 1) st =
                drainAux fuel ⟨eraseKey st.next st.m, st.next + 1, st.out ++ [line]⟩ := by
              simp [drainAux, hcase]
            rw [hstep]
            exact ih ⟨eraseKey st.next st.m, st.next + 1, st.out ++ [line]⟩ hlen2
              ⟨hnd2, hlk2, hlow2, hout2⟩
          · rw [if_neg hc] at hchar
            exact absurd hchar (by simp)

theorem dispatchStep_inv (render : Nat → String) (inS : Nat → Bool)
    (st : DispatchState) (idx : Nat)
    (hinv : DInv render inS st) (hidx : inS idx = false) :
    DInv render (fun i => inS i || decide (i = idx)) (dispatchStep render st idx) ∧
      lookupKey (dispatchStep render st idx).next (dispatchStep render st idx).m = none := by
  obtain ⟨hnd, hlk, hlow, hout⟩ := hinv
  have hfresh : lookupKey idx st.m = none := by
    rw [hlk idx, if_neg (by simp [hidx])]
  have hged : st.next ≤ idx := by
    by_contra hlt
    have := hlow idx (by omega)
    rw [hidx] at this
    exact Bool.false_ne_true this
  have hnd2 : ((((idx, render idx) : Nat × String) :: st.m).map Prod.fst).Nodup := by
    simp only [List.map_cons, List.nodup_cons]
    exact ⟨(lookupKey_none_iff idx st.m).mp hfresh, hnd⟩
  have hlk2 : ∀ i, lookupKey i ((idx, render idx) :: st.m) =
      if (inS i || decide (i = idx)) = true ∧ st.next ≤ i then some (render i) else none := by
    intro i
    by_cases hi : i = idx
    · have hv : lookupKey i ((idx, render idx) :: st.m) = some (render idx) := by
        simp [lookupKey, hi]
      rw [hv, if_pos ⟨by simp [hi], by omega⟩, hi]
    · have h2 : ¬ (idx = i) := fun hh => hi hh.symm
      have hv : lookupKey i ((idx, render idx) :: st.m) = lookupKey i st.m := by
        simp [lookupKey, h2]
      rw [hv, hlk i]
      have h3 : (inS i || decide (i = idx)) = inS i := by simp [hi]
      rw [h3]
  have hlow2 : ∀ i, i < st.next → (inS i || decide (i = idx)) = true := by
    intro i hi
    simp [hlow i hi]
  exact drainAux_inv render (fun i => inS i || decide (i = idx))
    (((idx, render idx) :: st.m).length) ⟨(idx, render idx) :: st.m, st.next, st.out⟩
    (Nat.le_refl _) ⟨hnd2, hlk2, hlow2, hout⟩

theorem runDispatch_fold (render : Nat → String) :
    ∀ (order : List Nat) (st : DispatchState) (inS : Nat → Bool),
      DInv render inS st →
      lookupKey st.next st.m = none →
      (∀ i ∈ order, inS i = false) → order.Nodup →
      ∃ inS2 : Nat → Bool,
        DInv render inS2 (order.foldl (dispatchStep render) st) ∧
        lookupKey (order.foldl (dispatchStep render) st).next
          (order.foldl (dispatchStep render) st).m = none ∧
        ∀ i, inS2 i = (inS i || decide (i ∈ order)) := by
  intro order
  induction order with
  | nil =>
      intro st inS hinv hstable hfree hnd
      exact ⟨inS, hinv, hstable, by simp⟩
  | cons idx rest ih =>
      intro st inS hinv hstable hfree hnd
      have hstep := dispatchStep_inv render inS st idx hinv (hfree idx (by simp))
      have hfree2 : ∀ i ∈ rest, (fun i => inS i || decide (i = idx)) i = false := by
        intro i hi
        have h1 : inS i = false := hfree i (by simp [hi])
        have h2 : i ≠ idx := by
          intro hh
          subst hh
          exact (List.nodup_cons.mp hnd).1 hi
        simp [h1, h2]
      obtain ⟨inS2, hinv2, hnone2, hchar2⟩ :=
        ih (dispatchStep render st idx) (fun i => inS i || decide (i = idx))
          hstep.1 hstep.2 hfree2 (List.nodup_cons.mp hnd).2
      refine ⟨inS2, by simpa using hinv2, by simpa using hnone2, ?_⟩
      intro i
      rw [hchar2 i]
      by_cases h1 : inS i = true <;> by_cases h2 : i = idx <;> by_cases h3 : i ∈ rest <;>
        simp [h1, h2, h3]

/-- C1: for every batch of N input rows, every worker count W ≥ 1 and every
completion order of the workers (any permutation of the row indices), the
dispatcher emits exactly one line per input row, and line i is the rendered
result of input row i: the output stream equals the rendered rows in input
order, regardless of completion order. -/
theorem claim_C1_output_order_matches_input_order
    (N W : Nat) (render : Nat → String) (order : List Nat)
    (_hW : 1 ≤ W) (hperm : order.Perm (List.range N)) :
    runDispatch W render order = (List.range N).map render ∧
      (runDispatch W render order).length = N := by
  have hnd : order.Nodup := (hperm.nodup_iff).mpr (List.nodup_range N)
  have hinv0 : DInv render (fun _ => false) ⟨[], 0, []⟩ := by
    refine ⟨by simp, ?_, ?_, by simp⟩
    · intro i
      simp [lookupKey]
    · intro i hi
      exact absurd hi (Nat.not_lt_zero i)
  obtain ⟨inS2, hinv, hnone, hchar⟩ :=
    runDispatch_fold render order ⟨[], 0, []⟩ (fun _ => false) hinv0
      (by simp [lookupKey]) (fun i _ => rfl) hnd
  have hmem : ∀ i, inS2 i = decide (i ∈ order) := by
    intro i
    rw [hchar i]
    simp
  have hnotin : inS2 (order.foldl (dispatchStep render) ⟨[], 0, []⟩).next = false := by
    have hx := hinv.2.1 (order.foldl (dispatchStep render) ⟨[], 0, []⟩).next
    rw [hnone] at hx
    by_cases hc : inS2 (order.foldl (dispatchStep render) ⟨[], 0, []⟩).next = true ∧
        (order.foldl (dispatchStep render) ⟨[], 0, []⟩).next ≤
          (order.foldl (dispatchStep render) ⟨[], 0, []⟩).next
    · rw [if_pos hc] at hx
      exact absurd hx (by simp)
    · rcases Bool.eq_false_or_eq_true
        (inS2 (order.foldl (dispatchStep render) ⟨[], 0, []⟩).next) with hb | hb
      · exact absurd ⟨hb, Nat.le_refl _⟩ hc
      · exact hb
  have h1 : ¬ ((order.foldl (dispatchStep render) ⟨[], 0, []⟩).next < N) := by
    intro hlt
    have hm := hmem (order.foldl (dispatchStep render) ⟨[], 0, []⟩).next
    rw [hnotin] at hm
    have : (order.foldl (dispatchStep render) ⟨[], 0, []⟩).next ∈ order :=
      hperm.mem_iff.mpr (List.mem_range.mpr hlt)
    simp [this] at hm
  have h2 : (order.foldl (dispatchStep render) ⟨[], 0, []⟩).next ≤ N := by
    by_contra hgt
    push_neg at hgt
    have hNin := hinv.2.2.1 N hgt
    rw [hmem N] at hNin
    have : N ∈ order := by simpa using hNin
    have := List.mem_range.mp (hperm.mem_iff.mp this)
    omega
  have hnext : (order.foldl (dispatchStep render) ⟨[], 0, []⟩).next = N := by omega
  have hout := hinv.2.2.2
  rw [hnext] at hout
  have hrun : runDispatch W render order =
      (order.foldl (dispatchStep render) ⟨[], 0, []⟩).out := rfl
  refine ⟨by rw [hrun, hout], ?_⟩
  rw [hrun, hout]
  simp

/-- Witness for C1 at N = 2, W = 2, reversed completion order. -/
theorem claim_C1_witness :
    1 ≤ 2 ∧ [1, 0].Perm (List.range 2) ∧
      (runDispatch 2 (fun i => toString i) [1, 0] =
          (List.range 2).map (fun i => toString i) ∧
        (runDispatch 2 (fun i => toString i) [1, 0]).length = 2) :=
  ⟨by decide, by decide,
    claim_C1_output_order_matches_input_order 2 2 (fun i => toString i) [1, 0]
      (by decide) (by decide)⟩

/-! ## Claim C2: pre-flight conflicts abort before any request -/

/-- Substring test (Python `a in b` on strings), via the first-occurrence
    splitter. -/
def strContains (s sub : String) : Bool :=
  (splitOnFirst sub.toList s.toList).isSome

theorem listStarts_extend (sub l rest : List Char) (h : listStarts sub l = true) :
    listStarts sub (l ++ rest) = true := by
  induction sub generalizing l with
  | nil => simp [listStarts]
  | cons a asx ih =>
      cases l with
      | nil => simp [listStarts] at h
      | cons b bs =>
          simp only [listStarts, Bool.and_eq_true, decide_eq_true_eq] at h
          simp only [List.cons_append, listStarts, Bool.and_eq_true, decide_eq_true_eq]
          exact ⟨h.1, ih bs h.2⟩

theorem splitOnFirst_cons (pat : List Char) (c : Char) (rest : List Char) :
    splitOnFirst pat (c :: rest) =
      if listStarts pat (c :: rest) = true then some ([], (c :: rest).drop pat.length)
      else (splitOnFirst pat rest).map (fun pr => (c :: pr.1, pr.2)) := by
  simp only [splitOnFirst]
  by_cases hs : listStarts pat (c :: rest) = true
  · simp [hs]
  · simp only [hs, Bool.false_eq_true, if_false]
    cases splitOnFirst pat rest with
    | none => rfl
    | some pr =>
        obtain ⟨a, b⟩ := pr
        rfl

theorem splitOnFirst_append_left (sub pre rest : List Char)
    (h : (splitOnFirst sub pre).isSome) :
    (splitOnFirst sub (pre ++ rest)).isSome := by
  induction pre with
  | nil =>
      simp only [splitOnFirst] at h
      by_cases he : sub.isEmpty
      · have hsub : sub = [] := by
          cases sub with
          | nil => rfl
          | cons a b => simp [List.isEmpty] at he
        subst hsub
        cases rest with
        | nil => simp [splitOnFirst]
        | cons c cs => simp [splitOnFirst, listStarts]
      · simp [he] at h
  | cons c pr ih =>
      rw [splitOnFirst_cons] at h
      rw [List.cons_append, splitOnFirst_cons]
      by_cases hs : listStarts sub (c :: pr) = true
      · have hs2 : listStarts sub (c :: (pr ++ rest)) = true := by
          have hx := listStarts_extend sub (c :: pr) rest hs
          rw [List.cons_append] at hx
          exact hx
        simp [hs2]
      · rw [if_neg (by simp [hs])] at h
        have hpr : (splitOnFirst sub pr).isSome := by
          cases hx : splitOnFirst sub pr with
          | none => rw [hx] at h; simp at h
          | some q => simp
        have hih := ih hpr
        by_cases hs3 : listStarts sub (c :: (pr ++ rest)) = true
        · simp [hs3]
        · rw [if_neg (by simp [hs3])]
          cases hx : splitOnFirst sub (pr ++ rest) with
          | none => rw [hx] at hih; simp at hih
          | some q => simp

theorem strContains_append_left (a b sub : String) (h : strContains a sub = true) :
    strContains (a ++ b) sub = true := by
  simp only [strContains, String.toList] at h ⊢
  rw [String.data_append]
  exact splitOnFirst_append_left sub.data a.data b.data h

/-- Every batch-fatal error message mentions "merge conflict". -/
theorem fatalMessage_mentions_merge_conflict (f : RowFatal) :
    strContains (fatalMessage f) "merge conflict" = true := by
  have hbase : strContains "Batch merge conflict on line " "merge conflict" = true := by
    decide
  cases f with
  | reservedKey ln k =>
      simp only [fatalMessage]
      exact strContains_append_left _ _ _
        (strContains_append_left _ _ _ (strContains_append_left _ _ _ hbase))
  | reservedPre ln p k =>
      simp only [fatalMessage]
      exact strContains_append_left _ _ _ (strContains_append_left _ _ _
        (strContains_append_left _ _ _ (strContains_append_left _ _ _
          (strContains_append_left _ _ _ hbase))))
  | extractedKey ln k =>
      simp only [fatalMessage]
      exact strContains_append_left _ _ _
        (strContains_append_left _ _ _ (strContains_append_left _ _ _ hbase))

theorem preflight_isSome_of_mem (cfg : BatchCfg) (rows : List (Nat × Row))
    (p : Nat × Row) (hp : p ∈ rows) (hc : (rowPreflight cfg p).isSome) :
    (preflight cfg rows).isSome := by
  induction rows with
  | nil => simp at hp
  | cons q rest ih =>
      rcases List.mem_cons.mp hp with hq | hq
      · subst hq
        cases hr : rowPreflight cfg p with
        | none => rw [hr] at hc; simp at hc
        | some f => simp [preflight, List.findSome?, hr]
      · cases hr : rowPreflight cfg q with
        | none =>
            have := ih hq
            simpa [preflight, List.findSome?, hr] using this
        | some f => simp [preflight, List.findSome?, hr]

/-- C2: if any input row carries a reserved output key (or a `tag:`-prefixed
key when extraction is enabled), the whole batch fails with a merge-conflict
error before any request is issued: no chat call is made, the exit status is
the non-zero MQError status 2, and no output file is installed. -/
theorem claim_C2_preflight_conflict_aborts (cfg : BatchCfg) (rows : List (Nat × Row))
    (oracle : Nat → ChatRes)
    (hconf : ∃ p ∈ rows, (rowPreflight cfg p).isSome) :
    (cmd_batch cfg rows oracle).requests = 0 ∧
      (cmd_batch cfg rows oracle).installed = none ∧
      (cmd_batch cfg rows oracle).exit = 2 ∧
      ∃ f, (cmd_batch cfg rows oracle).fatal = some f ∧
        strContains (fatalMessage f) "merge conflict" = true := by
  obtain ⟨p, hp, hc⟩ := hconf
  have hsome := preflight_isSome_of_mem cfg rows p hp hc
  cases hpf : preflight cfg rows with
  | none => rw [hpf] at hsome; simp at hsome
  | some f =>
      have hb : cmd_batch cfg rows oracle = ⟨some f, none, 0, 2⟩ := by
        simp [cmd_batch, hpf]
      rw [hb]
      exact ⟨rfl, rfl, rfl, f, rfl, fatalMessage_mentions_merge_conflict f⟩

/-- Witness for C2: a single row already containing `response`. -/
theorem claim_C2_witness :
    (∃ p ∈ [((1 : Nat), [("prompt", JVal.jstr "P1"), ("response", JVal.jstr "already")])],
        (rowPreflight ⟨false, none, none⟩ p).isSome) ∧
      ((cmd_batch ⟨false, none, none⟩
          [((1 : Nat), [("prompt", JVal.jstr "P1"), ("response", JVal.jstr "already")])]
          (fun _ => ChatRes.ok "R" none)).requests = 0 ∧
        (cmd_batch ⟨false, none, none⟩
          [((1 : Nat), [("prompt", JVal.jstr "P1"), ("response", JVal.jstr "already")])]
          (fun _ => ChatRes.ok "R" none)).installed = none ∧
        (cmd_batch ⟨false, none, none⟩
          [((1 : Nat), [("prompt", JVal.jstr "P1"), ("response", JVal.jstr "already")])]
          (fun _ => ChatRes.ok "R" none)).exit = 2 ∧
        ∃ f, (cmd_batch ⟨false, none, none⟩
          [((1 : Nat), [("prompt", JVal.jstr "P1"), ("response", JVal.jstr "already")])]
          (fun _ => ChatRes.ok "R" none)).fatal = some f ∧
          strContains (fatalMessage f) "merge conflict" = true) :=
  ⟨⟨((1 : Nat), [("prompt", JVal.jstr "P1"), ("response", JVal.jstr "already")]),
      by simp, by rfl⟩,
    claim_C2_preflight_conflict_aborts ⟨false, none, none⟩
      [((1 : Nat), [("prompt", JVal.jstr "P1"), ("response", JVal.jstr "already")])]
      (fun _ => ChatRes.ok "R" none)
      ⟨((1 : Nat), [("prompt", JVal.jstr "P1"), ("response", JVal.jstr "already")]),
        by simp, by rfl⟩⟩

/-! ## Key properties of tag extraction -/

theorem tagEntry_fst (e : String × List String) : (tagEntry e).1 = "tag:" ++ e.1 := by
  obtain ⟨n, vs⟩ := e
  match vs with
  | [] => rfl
  | [v] => rfl
  | v :: w :: rest => rfl

theorem extract_tags_keys (s : String) :
    (extract_tags s).map Prod.fst =
      (groupMatches ((scanTags s).map (fun nv => (nv.1, stripStr nv.2)))).map
        (fun e => "tag:" ++ e.1) := by
  rw [extract_tags, List.map_map]
  exact List.map_congr_left (fun e _ => tagEntry_fst e)

theorem addMatch_keys_nodup (acc : List (String × List String)) (nv : String × String)
    (h : (acc.map Prod.fst).Nodup) : ((addMatch acc nv).map Prod.fst).Nodup := by
  by_cases hany : acc.any (fun e => e.1 = nv.1)
  · have hmap : (addMatch acc nv).map Prod.fst = acc.map Prod.fst := by
      rw [addMatch, if_pos hany, List.map_map]
      refine List.map_congr_left (fun e _ => ?_)
      by_cases he : e.1 = nv.1 <;> simp [he]
    rw [hmap]
    exact h
  · have hmap : (addMatch acc nv).map Prod.fst = acc.map Prod.fst ++ [nv.1] := by
      rw [addMatch, if_neg hany, List.map_append]
      rfl
    rw [hmap]
    rw [List.nodup_append]
    refine ⟨h, List.nodup_singleton nv.1, ?_⟩
    intro a ha hb
    have hb2 : a = nv.1 := by simpa using hb
    subst hb2
    obtain ⟨e, he, hfst⟩ := List.mem_map.mp ha
    have hany2 : acc.any (fun e => decide (e.1 = nv.1)) = false := by
      rw [← Bool.not_eq_true]
      exact hany
    rw [List.any_eq_false] at hany2
    exact hany2 e he (by simp [hfst])

theorem foldl_addMatch_keys_nodup (ms : List (String × String)) :
    ∀ acc, (acc.map Prod.fst).Nodup → ((ms.foldl addMatch acc).map Prod.fst).Nodup := by
  induction ms with
  | nil => intro acc h; exact h
  | cons nv rest ih =>
      intro acc h
      exact ih (addMatch acc nv) (addMatch_keys_nodup acc nv h)

theorem groupMatches_keys_nodup (ms : List (String × String)) :
    ((groupMatches ms).map Prod.fst).Nodup :=
  foldl_addMatch_keys_nodup ms [] (by simp)

theorem tag_append_injective : Function.Injective (fun n => "tag:" ++ n) := by
  intro a b h
  have hd : ("tag:" ++ a).data = ("tag:" ++ b).data := congrArg String.data h
  rw [String.data_append, String.data_append] at hd
  have h2 := List.append_cancel_left hd
  cases a with
  | mk da =>
      cases b with
      | mk db => exact congrArg String.mk (by simpa using h2)

/-- The keys produced by `_extract_tags` are pairwise distinct. -/
theorem extract_tags_nodup_keys (s : String) : ((extract_tags s).map Prod.fst).Nodup := by
  rw [extract_tags_keys]
  have hcomp :
      (groupMatches ((scanTags s).map (fun nv => (nv.1, stripStr nv.2)))).map
          (fun e => "tag:" ++ e.1) =
        ((groupMatches ((scanTags s).map (fun nv => (nv.1, stripStr nv.2)))).map
          Prod.fst).map (fun n => "tag:" ++ n) := by
    rw [List.map_map]
    rfl
  rw [hcomp]
  exact (groupMatches_keys_nodup _).map tag_append_injective

/-- Every key produced by `_extract_tags` lives in the `tag:` namespace. -/
theorem extract_tags_keys_tagged (s : String) :
    ∀ k ∈ (extract_tags s).map Prod.fst, strStarts k "tag:" = true := by
  intro k hk
  rw [extract_tags_keys] at hk
  obtain ⟨e, _, hke⟩ := List.mem_map.mp hk
  rw [← hke]
  exact strStarts_append "tag:" e.1

/-! ## process_row shape lemmas -/

theorem rowHas_dictSet_false {o : Row} {k key : String} (v : JVal)
    (h1 : rowHas o key = false) (h2 : key ≠ k) : rowHas (dictSet o k v) key = false := by
  rw [rowHas_dictSet]
  simp [h1, h2]

theorem rowHas_dictSet_true (o : Row) (k key : String) (v : JVal)
    (h1 : rowHas o key = true) : rowHas (dictSet o k v) key = true := by
  rw [rowHas_dictSet]
  simp [h1]

theorem rowHas_foldl_dictSet (l : List (String × JVal)) (o : Row) (key : String)
    (h : rowHas o key = true) :
    rowHas (l.foldl (fun acc kv => dictSet acc kv.1 kv.2) o) key = true := by
  induction l generalizing o with
  | nil => exact h
  | cons kv rest ih => exact ih _ (rowHas_dictSet_true o kv.1 key kv.2 h)

theorem ne_of_tagged {k lit : String} (hk : strStarts k "tag:" = true)
    (hlit : strStarts lit "tag:" = false) : k ≠ lit := by
  intro he
  subst he
  rw [hk] at hlit
  exact Bool.noConfusion hlit

theorem noTagged_dictSet {o : Row} {k : String} (v : JVal)
    (h : ∀ key, strStarts key "tag:" = true → rowHas o key = false)
    (hk : strStarts k "tag:" = false) :
    ∀ key, strStarts key "tag:" = true → rowHas (dictSet o k v) key = false := by
  intro key hkey
  exact rowHas_dictSet_false v (h key hkey) (ne_of_tagged hkey hk)

theorem noTagged_outBase (cfg : BatchCfg) (row : Row) (promptVal : String)
    (h : ∀ key, strStarts key "tag:" = true → rowHas row key = false) :
    ∀ key, strStarts key "tag:" = true → rowHas (outBase cfg row promptVal) key = false := by
  have h1 := noTagged_dictSet (JVal.jstr promptVal) h
    (show strStarts "mq_input_prompt" "tag:" = false by decide)
  have h2 := noTagged_dictSet (JVal.jstr (apply_prompt_prefixed promptVal cfg.promptPre)) h1
    (show strStarts "prompt" "tag:" = false by decide)
  intro key hkey
  cases hsys : cfg.sysprompt with
  | none =>
      simp only [outBase, hsys]
      exact h2 key hkey
  | some sp =>
      by_cases hsp : stripStr sp ≠ ""
      · simp only [outBase, hsys, if_pos hsp]
        exact noTagged_dictSet (JVal.jstr sp) h2
          (show strStarts "sysprompt" "tag:" = false by decide) key hkey
      · simp only [outBase, hsys, if_neg hsp]
        exact h2 key hkey

theorem noTagged_outResponse (cfg : BatchCfg) (row : Row)
    (promptVal content : String) (reasoning : Option String)
    (h : ∀ key, strStarts key "tag:" = true → rowHas row key = false) :
    ∀ key, strStarts key "tag:" = true →
      rowHas (outResponse cfg row promptVal content reasoning) key = false := by
  have h3 := noTagged_dictSet (JVal.jstr content) (noTagged_outBase cfg row promptVal h)
    (show strStarts "response" "tag:" = false by decide)
  intro key hkey
  cases reasoning with
  | none =>
      simp only [outResponse]
      exact h3 key hkey
  | some r =>
      by_cases hr : stripStr r ≠ ""
      · simp only [outResponse, if_pos hr]
        exact noTagged_dictSet (JVal.jstr r) h3
          (show strStarts "reasoning" "tag:" = false by decide) key hkey
      · simp only [outResponse, if_neg hr]
        exact h3 key hkey

theorem noTagged_of_preflight (cfg : BatchCfg) (row : Row)
    (hext : cfg.extractTags = true) (hpre : findPrefixedKey cfg row = none) :
    ∀ key, strStarts key "tag:" = true → rowHas row key = false := by
  intro key hkey
  simp only [findPrefixedKey, hext, if_true] at hpre
  rw [List.find?_eq_none] at hpre
  cases h2 : rowHas row key with
  | false => rfl
  | true =>
      have hmem := (rowHas_iff_mem_keys row key).mp h2
      have := hpre key hmem
      rw [hkey] at this
      exact absurd rfl this

/-- With the per-row reserved checks passed, the in-flight extracted-key
    conflict test of `process_row` always comes up empty: extracted keys are
    `tag:`-prefixed and the output row built so far has no such key. -/
theorem find_extracted_none (cfg : BatchCfg) (row : Row)
    (promptVal content : String) (reasoning : Option String)
    (hext : cfg.extractTags = true) (hpre : findPrefixedKey cfg row = none) :
    ((extract_tags content).map Prod.fst).find?
      (fun k => rowHas (outResponse cfg row promptVal content reasoning) k) = none := by
  rw [List.find?_eq_none]
  intro k hk
  have htag := extract_tags_keys_tagged content k hk
  have hout := noTagged_outResponse cfg row promptVal content reasoning
    (noTagged_of_preflight cfg row hext hpre) k htag
  simp [hout]

/-- Once a row has passed the reserved-key checks, `process_row` cannot raise:
    every chat outcome produces an output row. -/
theorem process_row_isOk (cfg : BatchCfg) (lineNo : Nat) (row : Row) (res : ChatRes)
    (hres : findReservedKey row = none) (hpre : findPrefixedKey cfg row = none) :
    (process_row cfg lineNo row res).isOk = true := by
  cases hprompt : rowGet row "prompt" with
  | none => simp [process_row, hprompt, Except.isOk, Except.toBool]
  | some v =>
      cases v with
      | jnull => simp [process_row, hprompt, Except.isOk, Except.toBool]
      | jbool b => simp [process_row, hprompt, Except.isOk, Except.toBool]
      | jnum n => simp [process_row, hprompt, Except.isOk, Except.toBool]
      | jarr xs => simp [process_row, hprompt, Except.isOk, Except.toBool]
      | jobj fs => simp [process_row, hprompt, Except.isOk, Except.toBool]
      | jstr p =>
          cases res with
          | ok content reasoning =>
              by_cases hext : cfg.extractTags = true
              · have hfind := find_extracted_none cfg row p content reasoning hext hpre
                simp [process_row, hprompt, hres, hpre, hext, hfind, Except.isOk, Except.toBool]
              · simp [process_row, hprompt, hres, hpre, hext, Except.isOk, Except.toBool]
          | llmErr msg info => simp [process_row, hprompt, hres, hpre, Except.isOk, Except.toBool]
          | mqErr msg => simp [process_row, hprompt, hres, hpre, Except.isOk, Except.toBool]
          | exc n msg => simp [process_row, hprompt, hres, hpre, Except.isOk, Except.toBool]

theorem rowHas_outResponse_response (cfg : BatchCfg) (row : Row)
    (promptVal content : String) (reasoning : Option String) :
    rowHas (outResponse cfg row promptVal content reasoning) "response" = true := by
  have hr : rowHas (dictSet (outBase cfg row promptVal) "response" (JVal.jstr content))
      "response" = true := by
    simp [rowHas, rowGet_dictSet_self]
  cases reasoning with
  | none => simpa only [outResponse] using hr
  | some r =>
      by_cases hrr : stripStr r ≠ ""
      · simp only [outResponse, if_pos hrr]
        exact rowHas_dictSet_true _ _ _ _ hr
      · simp only [outResponse, if_neg hrr]
        exact hr

/-- Shape of a successfully processed row: the chat call was made, no per-row
    error was recorded, and the output row carries `response`. -/
theorem process_row_ok_shape (cfg : BatchCfg) (lineNo : Nat) (row : Row)
    (p content : String) (reasoning : Option String)
    (hprompt : rowGet row "prompt" = some (JVal.jstr p))
    (hres : findReservedKey row = none) (hpre : findPrefixedKey cfg row = none) :
    ∃ out, process_row cfg lineNo row (.ok content reasoning) = .ok ⟨out, false, true⟩ ∧
      rowHas out "response" = true := by
  by_cases hext : cfg.extractTags = true
  · have hfind := find_extracted_none cfg row p content reasoning hext hpre
    have heq : process_row cfg lineNo row (.ok content reasoning) =
        .ok ⟨(extract_tags content).foldl (fun o kv => dictSet o kv.1 kv.2)
          (outResponse cfg row p content reasoning), false, true⟩ := by
      simp [process_row, hprompt, hres, hpre, hext, hfind]
    exact ⟨_, heq,
      rowHas_foldl_dictSet _ _ _ (rowHas_outResponse_response cfg row p content reasoning)⟩
  · have heq : process_row cfg lineNo row (.ok content reasoning) =
        .ok ⟨outResponse cfg row p content reasoning, false, true⟩ := by
      simp [process_row, hprompt, hres, hpre, hext]
    exact ⟨_, heq, rowHas_outResponse_response cfg row p content reasoning⟩

/-- Shape of a row whose chat call failed with an LLM error: the failure is
    recorded on the output row as `error` (plus `error_info` when the
    structured detail dict is non-empty) and the batch-level error flag is
    set, without raising. -/
theorem process_row_llmErr_shape (cfg : BatchCfg) (lineNo : Nat) (row : Row)
    (p msg : String) (info : List (String × JVal))
    (hprompt : rowGet row "prompt" = some (JVal.jstr p))
    (hres : findReservedKey row = none) (hpre : findPrefixedKey cfg row = none) :
    ∃ out, process_row cfg lineNo row (.llmErr msg info) = .ok ⟨out, true, true⟩ ∧
      rowGet out "error" = some (JVal.jstr msg) ∧
      (info.isEmpty = false → rowGet out "error_info" = some (JVal.jobj info)) := by
  by_cases hinfo : info.isEmpty
  · have heq : process_row cfg lineNo row (.llmErr msg info) =
        .ok ⟨dictSet (outBase cfg row p) "error" (JVal.jstr msg), true, true⟩ := by
      simp [process_row, hprompt, hres, hpre, hinfo]
    refine ⟨_, heq, rowGet_dictSet_self _ _ _, ?_⟩
    intro hfalse
    rw [hinfo] at hfalse
    exact absurd hfalse Bool.noConfusion
  · have heq : process_row cfg lineNo row (.llmErr msg info) =
        .ok ⟨dictSet (dictSet (outBase cfg row p) "error" (JVal.jstr msg))
          "error_info" (JVal.jobj info), true, true⟩ := by
      simp [process_row, hprompt, hres, hpre, hinfo]
    refine ⟨_, heq, ?_, fun _ => rowGet_dictSet_self _ _ _⟩
    rw [rowGet_dictSet_ne _ _ (show "error" ≠ "error_info" by decide)]
    exact rowGet_dictSet_self _ _ _

/-- A row without a string `prompt` is not aborted and gets no chat call: it
    is annotated with an `error` field and the batch-level error flag. -/
theorem process_row_missing_prompt (cfg : BatchCfg) (lineNo : Nat) (row : Row)
    (res : ChatRes) (hnp : promptOk row = false) :
    process_row cfg lineNo row res =
      .ok ⟨dictSet row "error" (JVal.jstr "Row is missing required string field: prompt"),
        true, false⟩ := by
  cases hrg : rowGet row "prompt" with
  | none => simp [process_row, hrg]
  | some v =>
      cases v with
      | jstr s => simp [promptOk, hrg] at hnp
      | jnull => simp [process_row, hrg]
      | jbool b => simp [process_row, hrg]
      | jnum n => simp [process_row, hrg]
      | jarr xs => simp [process_row, hrg]
      | jobj fs => simp [process_row, hrg]

/-! ## Whole-run lemmas for cmd_batch -/

/-- Fallback outcome used only to express the value of an `Except` known to
    be `ok`. -/
def dfltOutcome : RowOutcome := ⟨[], false, false⟩

/-- Extract the payload of an `ok` result. -/
def getOk (e : Except RowFatal RowOutcome) (dflt : RowOutcome) : RowOutcome :=
  match e with
  | .ok oc => oc
  | .error _ => dflt

/-- The per-row outcomes of a batch run, by input position. -/
def batchOutcomes (cfg : BatchCfg) (rows : List (Nat × Row)) (oracle : Nat → ChatRes) :
    List RowOutcome :=
  rows.enum.map (fun p => getOk (process_row cfg p.2.1 p.2.2 (oracle p.1)) dfltOutcome)

theorem collectRows_map_ok (outs : List RowOutcome) :
    collectRows (outs.map Except.ok) = .ok outs := by
  induction outs with
  | nil => rfl
  | cons o os ih => simp [collectRows, ih, Except.map]

theorem preflight_none_mem (cfg : BatchCfg) (rows : List (Nat × Row))
    (hpf : preflight cfg rows = none) :
    ∀ p ∈ rows, findReservedKey p.2 = none ∧ findPrefixedKey cfg p.2 = none := by
  intro p hp
  have h := (List.findSome?_eq_none_iff.mp hpf) p hp
  cases hr : findReservedKey p.2 with
  | some k => simp [rowPreflight, hr] at h
  | none =>
      cases hx : findPrefixedKey cfg p.2 with
      | some k => simp [rowPreflight, hr, hx] at h
      | none => exact ⟨rfl, rfl⟩

theorem mem_of_mem_enumFrom {α : Type} {l : List α} {n : Nat} {p : Nat × α}
    (h : p ∈ l.enumFrom n) : p.2 ∈ l := by
  induction l generalizing n with
  | nil => simp [List.enumFrom] at h
  | cons a rest ih =>
      simp only [List.enumFrom, List.mem_cons] at h
      rcases h with h | h
      · rw [h]
        exact List.mem_cons_self a rest
      · exact List.mem_cons_of_mem a (ih h)

theorem mem_of_mem_enum {α : Type} {l : List α} {p : Nat × α} (h : p ∈ l.enum) :
    p.2 ∈ l := mem_of_mem_enumFrom h

/-- A batch whose pre-flight scan has passed and whose rows all process
    without a fatal conflict runs to completion: no abort, the output is
    installed in input order, and the exit status reflects the per-row error
    flag. -/
theorem cmd_batch_run (cfg : BatchCfg) (rows : List (Nat × Row)) (oracle : Nat → ChatRes)
    (hpf : preflight cfg rows = none)
    (hok : ∀ p ∈ rows.enum, (process_row cfg p.2.1 p.2.2 (oracle p.1)).isOk = true) :
    cmd_batch cfg rows oracle =
      ⟨none, some ((batchOutcomes cfg rows oracle).map (fun r => r.out)),
        ((batchOutcomes cfg rows oracle).filter (fun r => r.requested)).length,
        if (batchOutcomes cfg rows oracle).any (fun r => r.errored) then 1 else 0⟩ := by
  have hproc : rows.enum.map (fun p => process_row cfg p.2.1 p.2.2 (oracle p.1)) =
      (batchOutcomes cfg rows oracle).map Except.ok := by
    rw [batchOutcomes, List.map_map]
    refine List.map_congr_left (fun p hp => ?_)
    have h := hok p hp
    cases he : process_row cfg p.2.1 p.2.2 (oracle p.1) with
    | error f =>
        rw [he] at h
        simp [Except.isOk, Except.toBool] at h
    | ok oc => simp [Function.comp, getOk, he]
  simp only [cmd_batch, hpf, hproc, collectRows_map_ok]

theorem promptOk_true_iff (row : Row) :
    promptOk row = true ↔ ∃ s, rowGet row "prompt" = some (JVal.jstr s) := by
  cases hrg : rowGet row "prompt" with
  | none => simp [promptOk, hrg]
  | some v => cases v <;> simp [promptOk, hrg]

theorem batchOutcomes_length (cfg : BatchCfg) (rows : List (Nat × Row))
    (oracle : Nat → ChatRes) : (batchOutcomes cfg rows oracle).length = rows.length := by
  simp [batchOutcomes]

theorem batchOutcomes_get (cfg : BatchCfg) (rows : List (Nat × Row))
    (oracle : Nat → ChatRes) (i : Nat) (h : i < (batchOutcomes cfg rows oracle).length)
    (h2 : i < rows.length) :
    (batchOutcomes cfg rows oracle).get ⟨i, h⟩ =
      getOk (process_row cfg (rows.get ⟨i, h2⟩).1 (rows.get ⟨i, h2⟩).2 (oracle i))
        dfltOutcome := by
  simp [batchOutcomes, List.get_eq_getElem, List.getElem_map, List.getElem_enum]

theorem get_map_out (outs : List RowOutcome) (i : Nat)
    (h : i < (outs.map (fun r => r.out)).length) (h2 : i < outs.length) :
    (outs.map (fun r => r.out)).get ⟨i, h⟩ = (outs.get ⟨i, h2⟩).out := by
  simp [List.get_eq_getElem, List.getElem_map]

theorem batch_all_ok (cfg : BatchCfg) (rows : List (Nat × Row)) (oracle : Nat → ChatRes)
    (hpf : preflight cfg rows = none) :
    ∀ p ∈ rows.enum, (process_row cfg p.2.1 p.2.2 (oracle p.1)).isOk = true := by
  intro p hp
  obtain ⟨hres, hpre⟩ := preflight_none_mem cfg rows hpf p.2 (mem_of_mem_enum hp)
  exact process_row_isOk cfg p.2.1 p.2.2 (oracle p.1) hres hpre

/-- C9: if every row passes the pre-flight reserved-key scan, no merge
conflict can be raised while processing rows — for every chat oracle the run
aborts nowhere and installs an output file with one row per input row;
moreover every key produced by tag extraction carries the `tag:` namespace and
the extracted keys are pairwise distinct, which is what makes the in-flight
conflict branches unreachable. -/
theorem claim_C9_preflight_pass_runs_to_completion (cfg : BatchCfg)
    (rows : List (Nat × Row)) (oracle : Nat → ChatRes)
    (hpf : preflight cfg rows = none) :
    (cmd_batch cfg rows oracle).fatal = none ∧
      (∃ outRows, (cmd_batch cfg rows oracle).installed = some outRows ∧
        outRows.length = rows.length) ∧
      (∀ s, ∀ k ∈ (extract_tags s).map Prod.fst, strStarts k "tag:" = true) ∧
      (∀ s, ((extract_tags s).map Prod.fst).Nodup) := by
  rw [cmd_batch_run cfg rows oracle hpf (batch_all_ok cfg rows oracle hpf)]
  refine ⟨rfl, ⟨_, rfl, ?_⟩, extract_tags_keys_tagged, extract_tags_nodup_keys⟩
  simp [batchOutcomes]

/-- Witness for C9: one tag-extracting row whose response contains a tag. -/
theorem claim_C9_witness :
    preflight ⟨true, none, none⟩ [((1 : Nat), [("prompt", JVal.jstr "P")])] = none ∧
      ((cmd_batch ⟨true, none, none⟩ [((1 : Nat), [("prompt", JVal.jstr "P")])]
          (fun _ => ChatRes.ok "<a>x</a>" none)).fatal = none ∧
        (∃ outRows, (cmd_batch ⟨true, none, none⟩ [((1 : Nat), [("prompt", JVal.jstr "P")])]
            (fun _ => ChatRes.ok "<a>x</a>" none)).installed = some outRows ∧
          outRows.length = [((1 : Nat), [("prompt", JVal.jstr "P")])].length) ∧
        (∀ s, ∀ k ∈ (extract_tags s).map Prod.fst, strStarts k "tag:" = true) ∧
        (∀ s, ((extract_tags s).map Prod.fst).Nodup)) :=
  ⟨rfl, claim_C9_preflight_pass_runs_to_completion ⟨true, none, none⟩
    [((1 : Nat), [("prompt", JVal.jstr "P")])] (fun _ => ChatRes.ok "<a>x</a>" none) rfl⟩

/-- C3: when the external request fails for exactly one row with a non-fatal
LLM error, that row's output gains `error` (and `error_info` when structured
detail is available), every other row still carries `response`, the batch is
not aborted (its output is installed), and the exit status is the non-zero
per-row-failure status 1. -/
theorem claim_C3_per_row_error_is_recovered (cfg : BatchCfg) (rows : List (Nat × Row))
    (oracle : Nat → ChatRes) (msg : String) (info : List (String × JVal)) (j : Nat)
    (hpf : preflight cfg rows = none)
    (hprompts : ∀ p ∈ rows, promptOk p.2 = true)
    (hj : j < rows.length)
    (hoj : oracle j = .llmErr msg info)
    (hothers : ∀ i, i < rows.length → i ≠ j → ∃ c r, oracle i = .ok c r) :
    ∃ outRows, ∃ hlen : outRows.length = rows.length,
      (cmd_batch cfg rows oracle).fatal = none ∧
      (cmd_batch cfg rows oracle).installed = some outRows ∧
      (cmd_batch cfg rows oracle).exit = 1 ∧
      rowGet (outRows.get ⟨j, by rw [hlen]; exact hj⟩) "error" = some (JVal.jstr msg) ∧
      (info.isEmpty = false →
        rowGet (outRows.get ⟨j, by rw [hlen]; exact hj⟩) "error_info" =
          some (JVal.jobj info)) ∧
      (∀ i, (hi : i < rows.length) → i ≠ j →
        rowHas (outRows.get ⟨i, by rw [hlen]; exact hi⟩) "response" = true) := by
  have hrun := cmd_batch_run cfg rows oracle hpf (batch_all_ok cfg rows oracle hpf)
  have hlenouts : (batchOutcomes cfg rows oracle).length = rows.length :=
    batchOutcomes_length cfg rows oracle
  have hlenR : ((batchOutcomes cfg rows oracle).map (fun r => r.out)).length = rows.length := by
    simp [hlenouts]
  -- row j
  have hjmem : rows.get ⟨j, hj⟩ ∈ rows := List.get_mem rows j hj
  obtain ⟨hresj, hprej⟩ := preflight_none_mem cfg rows hpf _ hjmem
  obtain ⟨pj, hpj⟩ := (promptOk_true_iff _).mp (hprompts _ hjmem)
  obtain ⟨outj, heqj, herrj, hinfoj⟩ :=
    process_row_llmErr_shape cfg (rows.get ⟨j, hj⟩).1 (rows.get ⟨j, hj⟩).2 pj msg info
      hpj hresj hprej
  have hgetj : (batchOutcomes cfg rows oracle).get ⟨j, by rw [hlenouts]; exact hj⟩ =
      ⟨outj, true, true⟩ := by
    rw [batchOutcomes_get cfg rows oracle j _ hj, hoj, heqj]
    rfl
  refine ⟨(batchOutcomes cfg rows oracle).map (fun r => r.out), hlenR, ?_, ?_, ?_, ?_, ?_, ?_⟩
  · rw [hrun]
  · rw [hrun]
  · rw [hrun]
    have hany : (batchOutcomes cfg rows oracle).any (fun r => r.errored) = true := by
      rw [List.any_eq_true]
      refine ⟨(batchOutcomes cfg rows oracle).get ⟨j, by rw [hlenouts]; exact hj⟩,
        List.get_mem _ j _, ?_⟩
      rw [hgetj]
    simp [hany]
  · rw [get_map_out _ j _ (by rw [hlenouts]; exact hj), hgetj]
    exact herrj
  · intro hinfo
    rw [get_map_out _ j _ (by rw [hlenouts]; exact hj), hgetj]
    exact hinfoj hinfo
  · intro i hi hne
    have himem : rows.get ⟨i, hi⟩ ∈ rows := List.get_mem rows i hi
    obtain ⟨hresi, hprei⟩ := preflight_none_mem cfg rows hpf _ himem
    obtain ⟨pi, hpi⟩ := (promptOk_true_iff _).mp (hprompts _ himem)
    obtain ⟨c, r, hoi⟩ := hothers i hi hne
    obtain ⟨outi, heqi, hrespi⟩ :=
      process_row_ok_shape cfg (rows.get ⟨i, hi⟩).1 (rows.get ⟨i, hi⟩).2 pi c r
        hpi hresi hprei
    have hgeti : (batchOutcomes cfg rows oracle).get ⟨i, by rw [hlenouts]; exact hi⟩ =
        ⟨outi, false, true⟩ := by
      rw [batchOutcomes_get cfg rows oracle i _ hi, hoi, heqi]
      rfl
    rw [get_map_out _ i _ (by rw [hlenouts]; exact hi), hgeti]
    exact hrespi

/-- Concrete two-row batch used to witness C3. -/
def c3Rows : List (Nat × Row) :=
  [((1 : Nat), [("id", JVal.jnum 1), ("prompt", JVal.jstr "P1")]),
   ((2 : Nat), [("id", JVal.jnum 2), ("prompt", JVal.jstr "P2")])]

/-- Chat oracle for the C3 witness: row 0 fails, row 1 succeeds. -/
def c3Oracle : Nat → ChatRes :=
  fun i => if i = 0 then ChatRes.llmErr "boom" [("status_code", JVal.jnum 500)]
    else ChatRes.ok "R" none

/-- Witness for C3 on a concrete two-row batch. -/
theorem claim_C3_witness :
    (cmd_batch ⟨false, none, none⟩ c3Rows c3Oracle).exit = 1 ∧
      (cmd_batch ⟨false, none, none⟩ c3Rows c3Oracle).installed.isSome = true ∧
      (cmd_batch ⟨false, none, none⟩ c3Rows c3Oracle).fatal = none := by
  obtain ⟨outRows, hlen, hfatal, hinst, hexit, -, -, -⟩ :=
    claim_C3_per_row_error_is_recovered ⟨false, none, none⟩ c3Rows c3Oracle
      "boom" [("status_code", JVal.jnum 500)] 0 rfl (by decide) (by decide) rfl
      (by
        intro i hi hne
        have h1 : i = 1 := by
          simp [c3Rows] at hi
          omega
        rw [h1]
        exact ⟨"R", none, rfl⟩)
  refine ⟨hexit, ?_, hfatal⟩
  rw [hinst]
  rfl

/-- Counterexample to C4 as stated: a batch whose first row lacks a string
`prompt` does not fail before any request — the well-formed second row is
still requested (one chat call is made) and an output file is installed. -/
theorem claim_C4_counterexample :
    (cmd_batch ⟨false, none, none⟩
        [((1 : Nat), [("x", JVal.jnum 1)]), ((2 : Nat), [("prompt", JVal.jstr "P")])]
        (fun _ => ChatRes.ok "R" none)).requests = 1 ∧
      (cmd_batch ⟨false, none, none⟩
        [((1 : Nat), [("x", JVal.jnum 1)]), ((2 : Nat), [("prompt", JVal.jstr "P")])]
        (fun _ => ChatRes.ok "R" none)).installed.isSome = true ∧
      (cmd_batch ⟨false, none, none⟩
        [((1 : Nat), [("x", JVal.jnum 1)]), ((2 : Nat), [("prompt", JVal.jstr "P")])]
        (fun _ => ChatRes.ok "R" none)).fatal = none :=
  ⟨rfl, rfl, rfl⟩

/-- C4 (amended): a row lacking a string `prompt` field does not abort the
batch and gets no chat call of its own; its output row is annotated with the
error "Row is missing required string field: prompt" (without a line number),
all rows still produce output in input order, the exit status is the non-zero
per-row-failure status 1, and fewer chat calls than rows are made. -/
theorem claim_C4_missing_prompt_is_per_row_error (cfg : BatchCfg)
    (rows : List (Nat × Row)) (oracle : Nat → ChatRes) (j : Nat)
    (hpf : preflight cfg rows = none)
    (hj : j < rows.length)
    (hnp : promptOk (rows.get ⟨j, hj⟩).2 = false) :
    ∃ outRows, ∃ hlen : outRows.length = rows.length,
      (cmd_batch cfg rows oracle).fatal = none ∧
      (cmd_batch cfg rows oracle).installed = some outRows ∧
      (cmd_batch cfg rows oracle).exit = 1 ∧
      rowGet (outRows.get ⟨j, by rw [hlen]; exact hj⟩) "error" =
        some (JVal.jstr "Row is missing required string field: prompt") ∧
      (cmd_batch cfg rows oracle).requests < rows.length := by
  have hrun := cmd_batch_run cfg rows oracle hpf (batch_all_ok cfg rows oracle hpf)
  have hlenouts : (batchOutcomes cfg rows oracle).length = rows.length :=
    batchOutcomes_length cfg rows oracle
  have hlenR : ((batchOutcomes cfg rows oracle).map (fun r => r.out)).length = rows.length := by
    simp [hlenouts]
  have heqj := process_row_missing_prompt cfg (rows.get ⟨j, hj⟩).1 (rows.get ⟨j, hj⟩).2
    (oracle j) hnp
  have hgetj : (batchOutcomes cfg rows oracle).get ⟨j, by rw [hlenouts]; exact hj⟩ =
      ⟨dictSet (rows.get ⟨j, hj⟩).2 "error"
        (JVal.jstr "Row is missing required string field: prompt"), true, false⟩ := by
    rw [batchOutcomes_get cfg rows oracle j _ hj, heqj]
    rfl
  refine ⟨(batchOutcomes cfg rows oracle).map (fun r => r.out), hlenR, ?_, ?_, ?_, ?_, ?_⟩
  · rw [hrun]
  · rw [hrun]
  · rw [hrun]
    have hany : (batchOutcomes cfg rows oracle).any (fun r => r.errored) = true := by
      rw [List.any_eq_true]
      refine ⟨(batchOutcomes cfg rows oracle).get ⟨j, by rw [hlenouts]; exact hj⟩,
        List.get_mem _ j _, ?_⟩
      rw [hgetj]
    simp [hany]
  · rw [get_map_out _ j _ (by rw [hlenouts]; exact hj), hgetj]
    exact rowGet_dictSet_self _ _ _
  · rw [hrun]
    have hflt : ((batchOutcomes cfg rows oracle).filter (fun r => r.requested)).length <
        (batchOutcomes cfg rows oracle).length := by
      rw [List.length_filter_lt_length_iff_exists]
      refine ⟨(batchOutcomes cfg rows oracle).get ⟨j, by rw [hlenouts]; exact hj⟩,
        List.get_mem _ j _, ?_⟩
      rw [hgetj]
      simp
    calc ((batchOutcomes cfg rows oracle).filter (fun r => r.requested)).length
        < (batchOutcomes cfg rows oracle).length := hflt
      _ = rows.length := hlenouts

/-- Witness for the amended C4 on a concrete two-row batch. -/
theorem claim_C4_witness :
    (cmd_batch ⟨false, none, none⟩
        [((1 : Nat), [("x", JVal.jnum 1)]), ((2 : Nat), [("prompt", JVal.jstr "P")])]
        (fun _ => ChatRes.ok "R" none)).exit = 1 ∧
      (cmd_batch ⟨false, none, none⟩
        [((1 : Nat), [("x", JVal.jnum 1)]), ((2 : Nat), [("prompt", JVal.jstr "P")])]
        (fun _ => ChatRes.ok "R" none)).requests <
        [((1 : Nat), [("x", JVal.jnum 1)]),
          ((2 : Nat), [("prompt", JVal.jstr "P")])].length := by
  obtain ⟨outRows, hlen, hfatal, hinst, hexit, herr, hreq⟩ :=
    claim_C4_missing_prompt_is_per_row_error ⟨false, none, none⟩
      [((1 : Nat), [("x", JVal.jnum 1)]), ((2 : Nat), [("prompt", JVal.jstr "P")])]
      (fun _ => ChatRes.ok "R" none) 0 rfl (by decide) (by decide)
  exact ⟨hexit, hreq⟩

/-- C8: with tag extraction enabled, the response `"<field>one</field>\nR1"`
yields the single output key `tag:field` bound to the string "one" (also when
run through `process_row`), and a response containing two occurrences of the
same tag name binds `tag:<name>` to the sequence of both values in order of
appearance. -/
theorem claim_C8_tag_extraction_examples :
    extract_tags "<field>one</field>\nR1" = [("tag:field", JVal.jstr "one")] ∧
      extract_tags "<a>x</a> mid <a>y</a>" =
        [("tag:a", JVal.jarr [JVal.jstr "x", JVal.jstr "y"])] ∧
      (∃ oc, process_row ⟨true, none, none⟩ 1 [("prompt", JVal.jstr "P")]
          (ChatRes.ok "<field>one</field>\nR1" none) = .ok oc ∧
        rowGet oc.out "tag:field" = some (JVal.jstr "one")) :=
  ⟨rfl, rfl, ⟨_, rfl, rfl⟩⟩

/-! ## Session store (store.py)

The store state is explicit: `sessions` models the sessions/ directory (one
entry per file stem, with its mtime and parsed JSON document; session files
are always named `<stem>.json`), and `ptr` models last_conversation.json.
The pointer file can be absent, a symlink (recording the basename of its
target under sessions/), the plain-text fallback holding a session id, or a
legacy full JSON document.  A plain-id pointer is modelled as never parsing
to a JSON document: its content is an id (letters, digits, `_`, `-`, plus a
trailing newline), and even ids that happen to be valid JSON scalars (such as
digits or `true`) are not objects, so step 1 of the latest-session resolution
rejects them either way. -/

/-- State of the Latest-Pointer file last_conversation.json. -/
inductive PtrState where
  | missing
  | symlink (fileName : String)
  | plainId (id : String)
  | legacyDoc (v : JVal)
deriving Repr

/-- The on-disk store state. -/
structure FS where
  sessions : List (String × Nat × JVal)
  ptr : PtrState

/-- Contents of sessions/<id>.json, when that file exists. -/
def sessionsLookup (fs : FS) (id : String) : Option JVal :=
  match fs.sessions.find? (fun e => e.1 = id) with
  | some e => some e.2.2
  | none => none

/-- First character of a session id: `[A-Za-z0-9]`. -/
def isIdStart (c : Char) : Bool := c.isAlpha || c.isDigit

/-- Subsequent characters of a session id: `[A-Za-z0-9_-]`. -/
def isIdChar (c : Char) : Bool :=
  c.isAlpha || c.isDigit || decide (c = '_') || decide (c = '-')

/-- store.py SESSION_ID_RE: `^[A-Za-z0-9][A-Za-z0-9_-]{0,63}$`. -/
def validSessionId (s : String) : Bool :=
  match s.toList with
  | [] => false
  | c :: rest => isIdStart c && rest.all isIdChar && decide (rest.length ≤ 63)

mutual
/-- A minimal JSON serializer (string escaping elided).  Only used to model
    reading a legacy pointer document back as text; the claims only rely on
    serialized objects and arrays never being valid session ids (they start
    with a brace or bracket). -/
def serializeJVal : JVal → String
  | .jnull => "null"
  | .jbool b => if b then "true" else "false"
  | .jnum n => toString n
  | .jstr s => "\"" ++ s ++ "\""
  | .jarr xs => "[" ++ serializeJList xs ++ "]"
  | .jobj fields => "\x7b" ++ serializeJObj fields ++ "\x7d"

def serializeJList : List JVal → String
  | [] => ""
  | [v] => serializeJVal v
  | v :: rest => serializeJVal v ++ ", " ++ serializeJList rest

def serializeJObj : List (String × JVal) → String
  | [] => ""
  | [e] => "\"" ++ e.1 ++ "\": " ++ serializeJVal e.2
  | e :: rest => "\"" ++ e.1 ++ "\": " ++ serializeJVal e.2 ++ ", " ++ serializeJObj rest
end

/-- Store-level errors: UserError (invalid / unknown / duplicate id, no
    previous conversation) and ConfigError (corrupt JSON state). -/
inductive StoreError where
  | invalidId
  | notFound (id : String)
  | alreadyExists (id : String)
  | noSession
  | corrupt
deriving Repr, DecidableEq

/-- Drop a trailing ".json" (Python `name[: -len(".json")]`). -/
def dropJsonSuffix (f : String) : String := ⟨f.toList.take (f.toList.length - 5)⟩

/-- Reading the pointer file as JSON (store.py load_latest_session, step 1):
    a symlink reads through to its target under sessions/; a plain id never
    yields a document; a legacy document parses back to itself.  Read or
    parse failures are `none` (the caller swallows them). -/
def readPointerDoc (fs : FS) : Option JVal :=
  match fs.ptr with
  | .missing => none
  | .symlink f =>
      if strEnds f ".json" then sessionsLookup fs (dropJsonSuffix f) else none
  | .plainId _ => none
  | .legacyDoc v => some v

/-- The step-1 validity test: a dict whose `id` is a non-empty string. -/
def hasNonemptyStringId (fields : Row) : Bool :=
  match rowGet fields "id" with
  | some (JVal.jstr s) => decide (¬ s = "")
  | _ => false

/-- store.py `_read_latest_session_id_from_last_conversation`. -/
def read_latest_session_id (fs : FS) : Option String :=
  match fs.ptr with
  | .missing => none
  | .symlink f => if strEnds f ".json" then some (dropJsonSuffix f) else none
  | .plainId id => if stripStr id = "" then none else some (stripStr id)
  | .legacyDoc v =>
      if stripStr (serializeJVal v) = "" then none else some (stripStr (serializeJVal v))

/-- store.py `load_session`: not-found if the file is absent, corrupt-store if
    the stored JSON is not an object. -/
def load_session (fs : FS) (id : String) : Except StoreError Row :=
  match sessionsLookup fs id with
  | none => .error (.notFound id)
  | some (JVal.jobj fields) => .ok fields
  | some _ => .error .corrupt

/-- The newest session file by mtime (ties keep directory order; Python's
    stable descending sort does the same). -/
def newestSession (fs : FS) : Option String :=
  match fs.sessions with
  | [] => none
  | e :: rest =>
      some ((rest.foldl (fun best x => if best.2.1 < x.2.1 then x else best) e).1)

/-- Last resort of load_latest_session: newest session file, or the
    no-session error. -/
def latest_step3 (fs : FS) : Except StoreError Row :=
  match newestSession fs with
  | none => .error .noSession
  | some id => load_session fs id

/-- Second step of load_latest_session: resolve the pointer to an id and load
    it, ignoring an unknown-session error (an empty resolved id is falsy in
    Python and also falls through). -/
def latest_step2 (fs : FS) : Except StoreError Row :=
  match read_latest_session_id fs with
  | some sid =>
      if sid = "" then latest_step3 fs
      else
        match load_session fs sid with
        | .ok fields => .ok fields
        | .error (.notFound _) => latest_step3 fs
        | .error e => .error e
  | none => latest_step3 fs

/-- store.py `load_latest_session`. -/
def load_latest_session (fs : FS) : Except StoreError Row :=
  match readPointerDoc fs with
  | some (JVal.jobj fields) =>
      if hasNonemptyStringId fields then .ok fields else latest_step2 fs
  | _ => latest_step2 fs

/-- Which pointer-update mechanisms the platform allows (symlink creation,
    plain-file write).  Both may fail. -/
structure Env where
  symlinkOk : Bool
  plainOk : Bool

/-- The `os.symlink` attempt of `_set_latest_session`. -/
def trySymlink (env : Env) (id : String) (fs : FS) : Except Unit FS :=
  if env.symlinkOk then .ok { fs with ptr := .symlink (id ++ ".json") } else .error ()

/-- The plain-file fallback write of `_set_latest_session`. -/
def tryPlainWrite (env : Env) (id : String) (fs : FS) : Except Unit FS :=
  if env.plainOk then .ok { fs with ptr := .plainId id } else .error ()

/-- store.py `_set_latest_session`: try a symlink, fall back to the plain
    pointer file, and swallow every OS error — the function always returns
    normally.  (The unlink of a pre-existing pointer inside the first try
    block is folded into the symlink attempt.) -/
def set_latest_session (env : Env) (id : String) (fs : FS) : FS :=
  match trySymlink env id fs with
  | .ok fs2 => fs2
  | .error _ =>
      match tryPlainWrite env id fs with
      | .ok fs2 => fs2
      | .error _ => fs

/-- Replace or create sessions/<id>.json (atomic write + mtime update). -/
def writeEntry : List (String × Nat × JVal) → String → Nat → JVal →
    List (String × Nat × JVal)
  | [], id, mt, doc => [(id, mt, doc)]
  | e :: rest, id, mt, doc =>
      if e.1 = id then (id, mt, doc) :: rest else e :: writeEntry rest id mt doc

/-- `_write_json_atomic(session_path(id), doc)`. -/
def writeSession (fs : FS) (id : String) (mt : Nat) (doc : JVal) : FS :=
  { fs with sessions := writeEntry fs.sessions id mt doc }

/-- `session_path(id).unlink()`. -/
def removeSession (fs : FS) (id : String) : FS :=
  { fs with sessions := fs.sessions.filter (fun e => ¬ e.1 = id) }

/-- The session document assembled by `create_session`. -/
def createDoc (now id shortname provider model : String)
    (sysprompt : Option String) (messages : JVal) : JVal :=
  JVal.jobj [("version", JVal.jnum 1), ("id", JVal.jstr id),
    ("created_at", JVal.jstr now), ("updated_at", JVal.jstr now),
    ("model_shortname", JVal.jstr shortname), ("provider", JVal.jstr provider),
    ("model", JVal.jstr model),
    ("sysprompt", match sysprompt with | some s => JVal.jstr s | none => JVal.jnull),
    ("messages", messages)]

/-- store.py `create_session`.  `genId` stands for the generated uuid4 hex
    when no id is requested; `now` is the timestamp, `mt` the new file mtime. -/
def create_session (env : Env) (now : String) (mt : Nat)
    (shortname provider model : String) (sysprompt : Option String)
    (messages : JVal) (requested : Option String) (genId : String) (fs : FS) :
    Except StoreError (String × FS) :=
  let id := requested.getD genId
  if validSessionId id = false then .error .invalidId
  else if (sessionsLookup fs id).isSome then .error (.alreadyExists id)
  else
    .ok (id, set_latest_session env id (writeSession fs id mt
      (createDoc now id shortname provider model sysprompt messages)))

/-- store.py `save_session`.  Returns the session dict as mutated (Python
    updates it in place) together with the new store state. -/
def save_session (env : Env) (now : String) (mt : Nat) (session : Row) (fs : FS) :
    Except StoreError (Row × FS) :=
  match rowGet session "id" with
  | some (JVal.jstr id) =>
      if id = "" then .error .corrupt
      else if validSessionId id = false then .error .invalidId
      else
        let s2 := dictSet session "updated_at" (JVal.jstr now)
        .ok (s2, set_latest_session env id (writeSession fs id mt (JVal.jobj s2)))
  | _ => .error .corrupt

/-- store.py `select_session`: validate existence by loading, then repoint. -/
def select_session (env : Env) (id : String) (fs : FS) : Except StoreError FS :=
  match load_session fs id with
  | .ok _ => .ok (set_latest_session env id fs)
  | .error e => .error e

/-- store.py `rename_session`. -/
def rename_session (env : Env) (now : String) (mt : Nat) (oldId newId : String)
    (fs : FS) : Except StoreError FS :=
  if validSessionId oldId = false then .error .invalidId
  else if validSessionId newId = false then .error .invalidId
  else if oldId = newId then .ok fs
  else if (sessionsLookup fs oldId).isNone then .error (.notFound oldId)
  else if (sessionsLookup fs newId).isSome then .error (.alreadyExists newId)
  else
    match load_session fs oldId with
    | .error e => .error e
    | .ok fields =>
        let doc := JVal.jobj (dictSet (dictSet fields "id" (JVal.jstr newId))
          "updated_at" (JVal.jstr now))
        let fs1 := removeSession (writeSession fs newId mt doc) oldId
        .ok (if read_latest_session_id fs1 = some oldId
          then set_latest_session env newId fs1 else fs1)

/-! ## Claim C5: resolution order of load_latest_session -/

/-- The pointer "resolved to a session id", as the specification words it (an
    empty resolution is no id). -/
def specResolvedId (fs : FS) : Option String :=
  match read_latest_session_id fs with
  | some sid => if sid = "" then none else some sid
  | none => none

/-- Steps (2)-(3) as the specification words them: resolve the pointer to an
    id and load that session with a not-found error ignored; otherwise scan
    the directory for the newest-mtime session file, failing with the
    no-session error only when that also exhausts. -/
def specSteps23 (fs : FS) : Except StoreError Row :=
  match specResolvedId fs with
  | some sid =>
      match load_session fs sid with
      | .error (.notFound _) => latest_step3 fs
      | r => r
  | none => latest_step3 fs

/-- `loadLatestSession` as described by the specification: (1) a pointer that
    itself holds a valid session document is returned directly; (2) else the
    pointer is resolved to an id and that session loaded, ignoring not-found;
    (3) else the newest-mtime session file is loaded. -/
def loadLatestSession_specOrder (fs : FS) : Except StoreError Row :=
  match readPointerDoc fs with
  | some (JVal.jobj fields) =>
      if hasNonemptyStringId fields then .ok fields else specSteps23 fs
  | _ => specSteps23 fs

theorem load_session_ne_noSession (fs : FS) (id : String) :
    load_session fs id ≠ .error .noSession := by
  rw [load_session]
  cases hl : sessionsLookup fs id with
  | none => simp
  | some v => cases v <;> simp

theorem latest_step3_noSession (fs : FS) (h : latest_step3 fs = .error .noSession) :
    fs.sessions = [] := by
  rw [latest_step3] at h
  cases hns : newestSession fs with
  | none =>
      cases hfs : fs.sessions with
      | nil => rfl
      | cons e rest => simp [newestSession, hfs] at hns
  | some id =>
      rw [hns] at h
      exact absurd h (load_session_ne_noSession fs id)

theorem latest_step2_noSession (fs : FS) (h : latest_step2 fs = .error .noSession) :
    fs.sessions = [] := by
  cases hrid : read_latest_session_id fs with
  | none =>
      simp only [latest_step2, hrid] at h
      exact latest_step3_noSession fs h
  | some sid =>
      by_cases hsid : sid = ""
      · simp [latest_step2, hrid, hsid] at h
        exact latest_step3_noSession fs h
      · cases hls : load_session fs sid with
        | ok fields => simp [latest_step2, hrid, hsid, hls] at h
        | error e =>
            cases e with
            | notFound i =>
                simp [latest_step2, hrid, hsid, hls] at h
                exact latest_step3_noSession fs h
            | invalidId => simp [latest_step2, hrid, hsid, hls] at h
            | alreadyExists i => simp [latest_step2, hrid, hsid, hls] at h
            | corrupt => simp [latest_step2, hrid, hsid, hls] at h
            | noSession => exact absurd hls (load_session_ne_noSession fs sid)

/-- C5: `load_latest_session` resolves in exactly the specified order — (1) a
pointer that itself holds a valid session document is returned directly,
(2) else the pointer is resolved to an id and that session loaded with
not-found ignored, (3) else the newest-mtime session file is loaded — and it
fails with the no-session error only when all three steps exhaust (in
particular only when the sessions directory is empty). -/
theorem claim_C5_latest_resolution_order (fs : FS) :
    load_latest_session fs = loadLatestSession_specOrder fs ∧
      (load_latest_session fs = .error .noSession → fs.sessions = []) := by
  have h23 : latest_step2 fs = specSteps23 fs := by
    rw [latest_step2, specSteps23, specResolvedId]
    cases hrid : read_latest_session_id fs with
    | none => rfl
    | some sid =>
        by_cases hsid : sid = ""
        · simp [hsid]
        · simp only [hsid, if_false]
          cases load_session fs sid with
          | ok fields => rfl
          | error e => cases e <;> rfl
  constructor
  · rw [load_latest_session, loadLatestSession_specOrder]
    cases hp : readPointerDoc fs with
    | none => exact h23
    | some v =>
        cases v with
        | jobj fields =>
            by_cases hv : hasNonemptyStringId fields <;> simp [hv, h23]
        | jnull => exact h23
        | jbool b => exact h23
        | jnum n => exact h23
        | jstr s => exact h23
        | jarr xs => exact h23
  · intro h
    cases hp : readPointerDoc fs with
    | none =>
        simp only [load_latest_session, hp] at h
        exact latest_step2_noSession fs h
    | some v =>
        cases v with
        | jobj fields =>
            by_cases hv : hasNonemptyStringId fields
            · simp [load_latest_session, hp, hv] at h
            · simp [load_latest_session, hp, hv] at h
              exact latest_step2_noSession fs h
        | jnull =>
            simp only [load_latest_session, hp] at h
            exact latest_step2_noSession fs h
        | jbool b =>
            simp only [load_latest_session, hp] at h
            exact latest_step2_noSession fs h
        | jnum n =>
            simp only [load_latest_session, hp] at h
            exact latest_step2_noSession fs h
        | jstr s =>
            simp only [load_latest_session, hp] at h
            exact latest_step2_noSession fs h
        | jarr xs =>
            simp only [load_latest_session, hp] at h
            exact latest_step2_noSession fs h

/-- Witness for C5 on the empty store (exhausting all three steps). -/
theorem claim_C5_witness :
    load_latest_session ⟨[], .missing⟩ = loadLatestSession_specOrder ⟨[], .missing⟩ ∧
      (FS.mk [] .missing).sessions = [] :=
  ⟨(claim_C5_latest_resolution_order ⟨[], .missing⟩).1,
    (claim_C5_latest_resolution_order ⟨[], .missing⟩).2 rfl⟩

/-! ## Store lemmas -/

theorem set_latest_sessions (env : Env) (id : String) (fs : FS) :
    (set_latest_session env id fs).sessions = fs.sessions := by
  rw [set_latest_session, trySymlink, tryPlainWrite]
  by_cases h1 : env.symlinkOk <;> by_cases h2 : env.plainOk <;> simp [h1, h2]

theorem set_latest_ptr_symlink (env : Env) (id : String) (fs : FS)
    (h : env.symlinkOk = true) :
    (set_latest_session env id fs).ptr = .symlink (id ++ ".json") := by
  simp [set_latest_session, trySymlink, h]

theorem set_latest_ptr_plain (env : Env) (id : String) (fs : FS)
    (h1 : env.symlinkOk = false) (h2 : env.plainOk = true) :
    (set_latest_session env id fs).ptr = .plainId id := by
  simp [set_latest_session, trySymlink, tryPlainWrite, h1, h2]

theorem sessionsLookup_congr {fs1 fs2 : FS} (h : fs1.sessions = fs2.sessions)
    (k : String) : sessionsLookup fs1 k = sessionsLookup fs2 k := by
  rw [sessionsLookup, sessionsLookup, h]

theorem find_writeEntry_self (l : List (String × Nat × JVal)) (id : String)
    (mt : Nat) (doc : JVal) :
    (writeEntry l id mt doc).find? (fun e => e.1 = id) = some (id, mt, doc) := by
  induction l with
  | nil => simp [writeEntry, List.find?]
  | cons e rest ih =>
      by_cases h : e.1 = id
      · simp [writeEntry, h, List.find?]
      · simp only [writeEntry, h, if_false]
        simp [List.find?, h, ih]

theorem find_writeEntry_ne (l : List (String × Nat × JVal)) (id : String)
    (mt : Nat) (doc : JVal) (k : String) (h : ¬ k = id) :
    (writeEntry l id mt doc).find? (fun e => e.1 = k) = l.find? (fun e => e.1 = k) := by
  have hik : ¬ (id = k) := fun hh => h hh.symm
  induction l with
  | nil => simp [writeEntry, List.find?, hik]
  | cons e rest ih =>
      by_cases he : e.1 = id
      · simp only [writeEntry, he, if_true]
        simp [List.find?, he, hik]
      · simp only [writeEntry, he, if_false]
        by_cases hk : e.1 = k <;> simp [List.find?, hk, ih]

theorem sessionsLookup_writeSession_self (fs : FS) (id : String) (mt : Nat) (doc : JVal) :
    sessionsLookup (writeSession fs id mt doc) id = some doc := by
  simp [sessionsLookup, writeSession, find_writeEntry_self]

theorem sessionsLookup_writeSession_ne (fs : FS) (id : String) (mt : Nat) (doc : JVal)
    (k : String) (h : ¬ k = id) :
    sessionsLookup (writeSession fs id mt doc) k = sessionsLookup fs k := by
  simp [sessionsLookup, writeSession, find_writeEntry_ne fs.sessions id mt doc k h]

theorem sessionsLookup_remove_self (fs : FS) (id : String) :
    sessionsLookup (removeSession fs id) id = none := by
  have hf : (removeSession fs id).sessions.find? (fun e => e.1 = id) = none := by
    rw [List.find?_eq_none]
    intro e he
    have h2 : ¬ e.1 = id := by
      have hx : e ∈ fs.sessions ∧ ¬ e.1 = id := by simpa [removeSession] using he
      exact hx.2
    simp [h2]
  simp [sessionsLookup, hf]

theorem find_filter_of_imp {α : Type} (p q : α → Bool) (l : List α)
    (h : ∀ e, p e = true → q e = true) :
    (l.filter q).find? p = l.find? p := by
  induction l with
  | nil => simp
  | cons e rest ih =>
      by_cases hq : q e = true
      · simp only [List.filter_cons, hq, if_true]
        by_cases hp : p e = true <;> simp [List.find?, hp, ih]
      · have hp : p e = false := by
          cases hpe : p e with
          | false => rfl
          | true => exact absurd (h e hpe) hq
        simp only [List.filter_cons, hq]
        simp [List.find?, hp, ih]

theorem sessionsLookup_remove_ne (fs : FS) (id k : String) (h : ¬ k = id) :
    sessionsLookup (removeSession fs id) k = sessionsLookup fs k := by
  rw [sessionsLookup, removeSession]
  have hf := find_filter_of_imp (fun e => decide (e.1 = k)) (fun e => decide (¬ e.1 = id))
    fs.sessions (by
      intro e hpe
      simp at hpe ⊢
      rw [hpe]
      exact h)
  simp only at hf
  rw [hf, sessionsLookup]

theorem read_latest_only_ptr (fs1 fs2 : FS) (h : fs1.ptr = fs2.ptr) :
    read_latest_session_id fs1 = read_latest_session_id fs2 := by
  rw [read_latest_session_id, read_latest_session_id, h]

theorem strEnds_append (a b : String) : strEnds (a ++ b) b = true := by
  rw [strEnds]
  have h : (a ++ b).toList = a.toList ++ b.toList := String.data_append a b
  rw [h, List.reverse_append]
  exact listStarts_append _ _

theorem dropJsonSuffix_append (id : String) : dropJsonSuffix (id ++ ".json") = id := by
  cases id with
  | mk data =>
      rw [dropJsonSuffix]
      have h : (String.mk data ++ ".json").toList = data ++ ".json".toList :=
        String.data_append _ _
      rw [h]
      congr 1
      have hlen : (data ++ ".json".toList).length - 5 = data.length := by
        simp [List.length_append]
      rw [hlen]
      exact List.take_left data ".json".toList

theorem valid_ne_empty (id : String) (h : validSessionId id = true) : ¬ id = "" := by
  intro he
  subst he
  simp [validSessionId] at h

theorem isIdChar_not_ws (c : Char) (h : isIdChar c = true) : c.isWhitespace = false := by
  cases hw : c.isWhitespace with
  | false => rfl
  | true =>
      exfalso
      have hw2 : c = ' ' ∨ c = '\t' ∨ c = '\r' ∨ c = '\n' := by
        have hx := hw
        simp [Char.isWhitespace] at hx
        tauto
      rcases hw2 with h1 | h1 | h1 | h1 <;> (subst h1; exact absurd h (by decide))

theorem isIdStart_isIdChar (c : Char) (h : isIdStart c = true) : isIdChar c = true := by
  simp [isIdStart] at h
  rcases h with h | h <;> simp [isIdChar, h]

theorem valid_all_chars (id : String) (h : validSessionId id = true) :
    ∀ c ∈ id.toList, isIdChar c = true := by
  cases hl : id.toList with
  | nil =>
      intro c hc
      simp [hl] at hc
  | cons c0 rest =>
      simp only [validSessionId, hl, Bool.and_eq_true] at h
      intro c hc
      rcases List.mem_cons.mp hc with hc | hc
      · rw [hc]
        exact isIdStart_isIdChar c0 h.1.1
      · exact (List.all_eq_true.mp h.1.2) c hc

theorem dropWhile_eq_self_of_all {p : Char → Bool} (l : List Char)
    (h : ∀ c ∈ l, p c = false) : l.dropWhile p = l := by
  cases l with
  | nil => rfl
  | cons c rest =>
      have hc := h c (by simp)
      simp [List.dropWhile_cons, hc]

theorem strip_of_valid (id : String) (h : validSessionId id = true) :
    stripStr id = id := by
  have hnws : ∀ c ∈ id.toList, c.isWhitespace = false :=
    fun c hc => isIdChar_not_ws c (valid_all_chars id h c hc)
  have hl : lstripChars id.toList = id.toList :=
    dropWhile_eq_self_of_all id.toList hnws
  have hr : rstripChars id.toList = id.toList := by
    rw [rstripChars]
    have : id.toList.reverse.dropWhile Char.isWhitespace = id.toList.reverse :=
      dropWhile_eq_self_of_all id.toList.reverse (by
        intro c hc
        exact hnws c (List.mem_reverse.mp hc))
    rw [this, List.reverse_reverse]
  rw [stripStr, hl, hr]
  cases id with
  | mk data => rfl

/-- After repointing the Latest-Pointer at a session id whose file holds an
    object with that id, `load_latest_session` returns exactly that document —
    via step 1 when the pointer is a symlink, via step 2 when the plain-file
    fallback was used. -/
theorem load_latest_after_set (env : Env) (id : String) (fs : FS)
    (henv : env.symlinkOk = true ∨ env.plainOk = true)
    (hvalid : validSessionId id = true)
    (fields : Row)
    (hdoc : sessionsLookup fs id = some (JVal.jobj fields))
    (hid : rowGet fields "id" = some (JVal.jstr id)) :
    load_latest_session (set_latest_session env id fs) = .ok fields := by
  have hsess := set_latest_sessions env id fs
  have hlook : sessionsLookup (set_latest_session env id fs) id =
      some (JVal.jobj fields) := by
    rw [sessionsLookup_congr hsess id]
    exact hdoc
  have hnz : hasNonemptyStringId fields = true := by
    simp only [hasNonemptyStringId, hid]
    simp [valid_ne_empty id hvalid]
  by_cases hsl : env.symlinkOk = true
  · have hptr := set_latest_ptr_symlink env id fs hsl
    have hpd : readPointerDoc (set_latest_session env id fs) = some (JVal.jobj fields) := by
      simp only [readPointerDoc, hptr, strEnds_append id ".json", if_true,
        dropJsonSuffix_append id]
      exact hlook
    simp [load_latest_session, hpd, hnz]
  · have hsl2 : env.symlinkOk = false := by
      cases hb : env.symlinkOk with
      | false => rfl
      | true => exact absurd hb hsl
    have hpl : env.plainOk = true := by
      rcases henv with h | h
      · exact absurd h hsl
      · exact h
    have hptr := set_latest_ptr_plain env id fs hsl2 hpl
    have hpd : readPointerDoc (set_latest_session env id fs) = none := by
      simp [readPointerDoc, hptr]
    have hrid : read_latest_session_id (set_latest_session env id fs) = some id := by
      simp only [read_latest_session_id, hptr, strip_of_valid id hvalid]
      simp [valid_ne_empty id hvalid]
    have hload : load_session (set_latest_session env id fs) id = .ok fields := by
      simp [load_session, hlook]
    have hstep2 : latest_step2 (set_latest_session env id fs) = .ok fields := by
      simp [latest_step2, hrid, valid_ne_empty id hvalid, hload]
    simp [load_latest_session, hpd, hstep2]

/-- C6: after `create_session` returns an id, and after `save_session` on a
session carrying an id, `load_latest_session` returns a session document whose
id equals the id just written; after `select_session x` on an existing
session whose stored document carries id `x`, `load_latest_session` returns a
document with id `x`, and `select_session` does not mutate any session file.
(At least one of the two pointer-update mechanisms is assumed to work.) -/
theorem claim_C6_latest_pointer_correctness (env : Env) (now : String) (mt : Nat)
    (henv : env.symlinkOk = true ∨ env.plainOk = true) :
    (∀ shortname provider model sysprompt messages requested genId fs id fs2,
      create_session env now mt shortname provider model sysprompt messages
          requested genId fs = .ok (id, fs2) →
      ∃ fields, load_latest_session fs2 = .ok fields ∧
        rowGet fields "id" = some (JVal.jstr id)) ∧
    (∀ session fs s2 fs2 id,
      rowGet session "id" = some (JVal.jstr id) →
      save_session env now mt session fs = .ok (s2, fs2) →
      ∃ fields, load_latest_session fs2 = .ok fields ∧
        rowGet fields "id" = some (JVal.jstr id)) ∧
    (∀ x fs fs2 fields0,
      sessionsLookup fs x = some (JVal.jobj fields0) →
      rowGet fields0 "id" = some (JVal.jstr x) →
      validSessionId x = true →
      select_session env x fs = .ok fs2 →
      fs2.sessions = fs.sessions ∧
      ∃ fields, load_latest_session fs2 = .ok fields ∧
        rowGet fields "id" = some (JVal.jstr x)) := by
  refine ⟨?_, ?_, ?_⟩
  · intro shortname provider model sysprompt messages requested genId fs id fs2 hcr
    by_cases hv : validSessionId (requested.getD genId) = false
    · simp [create_session, hv] at hcr
    · have hvalid : validSessionId (requested.getD genId) = true := by
        cases hb : validSessionId (requested.getD genId) with
        | false => exact absurd hb hv
        | true => rfl
      by_cases hex : (sessionsLookup fs (requested.getD genId)).isSome
      · simp [create_session, hv, hex] at hcr
      · simp only [create_session, hv, Bool.false_eq_true, Bool.true_eq_false, if_false,
          hex, Except.ok.injEq, Prod.mk.injEq] at hcr
        obtain ⟨hid2, hfs2⟩ := hcr
        subst hfs2
        rw [← hid2]
        refine ⟨_, load_latest_after_set env (requested.getD genId) _ henv hvalid _
          (sessionsLookup_writeSession_self fs (requested.getD genId) mt _) ?_, ?_⟩
        · rfl
        · rfl
  · intro session fs s2 fs2 id hid hsv
    simp only [save_session, hid] at hsv
    by_cases hz : id = ""
    · simp [hz] at hsv
    · by_cases hv : validSessionId id = false
      · simp [hz, hv] at hsv
      · have hvalid : validSessionId id = true := by
          cases hb : validSessionId id with
          | false => exact absurd hb hv
          | true => rfl
        simp only [hz, if_false, hv, Bool.false_eq_true, Bool.true_eq_false,
          Except.ok.injEq, Prod.mk.injEq] at hsv
        obtain ⟨hs2, hfs2⟩ := hsv
        subst hs2
        subst hfs2
        have hid2 : rowGet (dictSet session "updated_at" (JVal.jstr now)) "id" =
            some (JVal.jstr id) := by
          rw [rowGet_dictSet_ne session (JVal.jstr now)
            (show "id" ≠ "updated_at" by decide)]
          exact hid
        exact ⟨_, load_latest_after_set env id _ henv hvalid _
          (sessionsLookup_writeSession_self fs id mt _) hid2, hid2⟩
  · intro x fs fs2 fields0 hdoc hid hvalid hsel
    have hload : load_session fs x = .ok fields0 := by
      simp [load_session, hdoc]
    simp only [select_session, hload, Except.ok.injEq] at hsel
    subst hsel
    exact ⟨set_latest_sessions env x fs,
      ⟨fields0, load_latest_after_set env x fs henv hvalid fields0 hdoc hid, hid⟩⟩

/-- Concrete store for the C6 witness: one session `s1`. -/
def c6Fs : FS := ⟨[("s1", 1, JVal.jobj [("id", JVal.jstr "s1")])], .missing⟩

/-- Witness for C6 via select_session on a symlink-capable platform. -/
theorem claim_C6_witness :
    (set_latest_session ⟨true, false⟩ "s1" c6Fs).sessions = c6Fs.sessions ∧
      ∃ fields, load_latest_session (set_latest_session ⟨true, false⟩ "s1" c6Fs) =
          .ok fields ∧ rowGet fields "id" = some (JVal.jstr "s1") :=
  (claim_C6_latest_pointer_correctness ⟨true, false⟩ "T" 1 (Or.inl rfl)).2.2
    "s1" c6Fs (set_latest_session ⟨true, false⟩ "s1" c6Fs) [("id", JVal.jstr "s1")]
    rfl rfl (by decide) rfl

theorem read_latest_after_set (env : Env) (id : String) (fs : FS)
    (henv : env.symlinkOk = true ∨ env.plainOk = true)
    (hvalid : validSessionId id = true) :
    read_latest_session_id (set_latest_session env id fs) = some id := by
  by_cases hsl : env.symlinkOk = true
  · have hptr := set_latest_ptr_symlink env id fs hsl
    simp [read_latest_session_id, hptr, strEnds_append id ".json", dropJsonSuffix_append id]
  · have hsl2 : env.symlinkOk = false := by
      cases hb : env.symlinkOk with
      | false => rfl
      | true => exact absurd hb hsl
    have hpl : env.plainOk = true := by
      rcases henv with h | h
      · exact absurd h hsl
      · exact h
    have hptr := set_latest_ptr_plain env id fs hsl2 hpl
    simp [read_latest_session_id, hptr, strip_of_valid id hvalid, valid_ne_empty id hvalid]

/-- C7 (amended to distinct ids; `rename_session(a, a)` is a silent no-op in
the code): for distinct valid ids, rename fails with a user error when the
old session file is missing or the new one already exists; otherwise it
writes the record under the new id with `id` = newId and a fresh
`updated_at`, deletes the old file, and repoints the Latest-Pointer to newId
exactly when the pointer resolved to oldId before the rename. -/
theorem claim_C7_rename_semantics (env : Env) (now : String) (mt : Nat)
    (oldId newId : String) (fs : FS)
    (hold : validSessionId oldId = true) (hnew : validSessionId newId = true)
    (hne : oldId ≠ newId)
    (henv : env.symlinkOk = true ∨ env.plainOk = true) :
    (sessionsLookup fs oldId = none →
      rename_session env now mt oldId newId fs = .error (.notFound oldId)) ∧
    (∀ v, sessionsLookup fs oldId = some v → ∀ w, sessionsLookup fs newId = some w →
      rename_session env now mt oldId newId fs = .error (.alreadyExists newId)) ∧
    (∀ fields, sessionsLookup fs oldId = some (JVal.jobj fields) →
      sessionsLookup fs newId = none →
      ∃ fs2, rename_session env now mt oldId newId fs = .ok fs2 ∧
        sessionsLookup fs2 newId =
          some (JVal.jobj (dictSet (dictSet fields "id" (JVal.jstr newId))
            "updated_at" (JVal.jstr now))) ∧
        sessionsLookup fs2 oldId = none ∧
        (read_latest_session_id fs = some oldId →
          read_latest_session_id fs2 = some newId) ∧
        (read_latest_session_id fs ≠ some oldId → fs2.ptr = fs.ptr)) := by
  refine ⟨?_, ?_, ?_⟩
  · intro h1
    simp [rename_session, hold, hnew, hne, h1]
  · intro v hso w hsn
    simp [rename_session, hold, hnew, hne, hso, hsn]
  · intro fields hso hsn
    have hload : load_session fs oldId = .ok fields := by
      simp [load_session, hso]
    have hok : rename_session env now mt oldId newId fs =
        .ok (if read_latest_session_id
            (removeSession (writeSession fs newId mt
              (JVal.jobj (dictSet (dictSet fields "id" (JVal.jstr newId))
                "updated_at" (JVal.jstr now)))) oldId) = some oldId
          then set_latest_session env newId
            (removeSession (writeSession fs newId mt
              (JVal.jobj (dictSet (dictSet fields "id" (JVal.jstr newId))
                "updated_at" (JVal.jstr now)))) oldId)
          else removeSession (writeSession fs newId mt
            (JVal.jobj (dictSet (dictSet fields "id" (JVal.jstr newId))
              "updated_at" (JVal.jstr now)))) oldId) := by
      simp [rename_session, hold, hnew, hne, hso, hsn, hload]
    have hptr1 : (removeSession (writeSession fs newId mt
        (JVal.jobj (dictSet (dictSet fields "id" (JVal.jstr newId))
          "updated_at" (JVal.jstr now)))) oldId).ptr = fs.ptr := rfl
    have hrid1 := read_latest_only_ptr _ _ hptr1
    have hlooknew : sessionsLookup (removeSession (writeSession fs newId mt
        (JVal.jobj (dictSet (dictSet fields "id" (JVal.jstr newId))
          "updated_at" (JVal.jstr now)))) oldId) newId =
        some (JVal.jobj (dictSet (dictSet fields "id" (JVal.jstr newId))
          "updated_at" (JVal.jstr now))) := by
      rw [sessionsLookup_remove_ne _ _ _ (fun hh => hne hh.symm)]
      exact sessionsLookup_writeSession_self fs newId mt _
    have hlookold : sessionsLookup (removeSession (writeSession fs newId mt
        (JVal.jobj (dictSet (dictSet fields "id" (JVal.jstr newId))
          "updated_at" (JVal.jstr now)))) oldId) oldId = none :=
      sessionsLookup_remove_self _ oldId
    set fs1 : FS := removeSession (writeSession fs newId mt
      (JVal.jobj (dictSet (dictSet fields "id" (JVal.jstr newId))
        "updated_at" (JVal.jstr now)))) oldId with hfs1
    by_cases hc : read_latest_session_id fs = some oldId
    · refine ⟨set_latest_session env newId fs1, ?_, ?_, ?_, ?_, ?_⟩
      · rw [hok]
        rw [if_pos (by rw [hrid1]; exact hc)]
      · rw [sessionsLookup_congr (set_latest_sessions env newId fs1) newId]
        exact hlooknew
      · rw [sessionsLookup_congr (set_latest_sessions env newId fs1) oldId]
        exact hlookold
      · intro _
        exact read_latest_after_set env newId fs1 henv hnew
      · intro hcon
        exact absurd hc hcon
    · refine ⟨fs1, ?_, ?_, ?_, ?_, ?_⟩
      · rw [hok]
        rw [if_neg (by rw [hrid1]; exact hc)]
      · exact hlooknew
      · exact hlookold
      · intro hcon
        exact absurd hcon hc
      · intro _
        exact hptr1

/-- Concrete store for C7: a single session `a`, no pointer. -/
def c7Fs : FS := ⟨[("a", 0, JVal.jobj [("id", JVal.jstr "a")])], .missing⟩

/-- Counterexample to C7 as stated: with oldId = newId = "a" and the file for
"a" present, `rename_session` succeeds as a silent no-op even though newId's
session file already exists, where the claim requires a user error. -/
theorem claim_C7_counterexample :
    rename_session ⟨true, true⟩ "T" 1 "a" "a" c7Fs = .ok c7Fs ∧
      (sessionsLookup c7Fs "a").isSome = true ∧
      validSessionId "a" = true :=
  ⟨rfl, rfl, by decide⟩

/-- Witness for the amended C7: rename "a" to "b". -/
theorem claim_C7_witness :
    ∃ fs2, rename_session ⟨true, true⟩ "T" 1 "a" "b" c7Fs = .ok fs2 ∧
      sessionsLookup fs2 "b" =
        some (JVal.jobj (dictSet (dictSet [("id", JVal.jstr "a")] "id" (JVal.jstr "b"))
          "updated_at" (JVal.jstr "T"))) ∧
      sessionsLookup fs2 "a" = none ∧
      (read_latest_session_id c7Fs = some "a" →
        read_latest_session_id fs2 = some "b") ∧
      (read_latest_session_id c7Fs ≠ some "a" → fs2.ptr = c7Fs.ptr) :=
  (claim_C7_rename_semantics ⟨true, true⟩ "T" 1 "a" "b" c7Fs (by decide) (by decide)
    (by decide) (Or.inl rfl)).2.2 [("id", JVal.jstr "a")] rfl rfl

/-- C10: `create_session` and `save_session` report success whenever the
session file itself is written, for every combination of pointer-update
capabilities — `_set_latest_session` swallows every OS error from both the
symlink attempt and the plain-file fallback and always returns normally, so
no pointer I/O failure ever propagates to the caller of either operation. -/
theorem claim_C10_pointer_failures_never_propagate (env : Env) (now : String) (mt : Nat) :
    (∀ shortname provider model sysprompt messages requested genId fs,
      validSessionId (requested.getD genId) = true →
      sessionsLookup fs (requested.getD genId) = none →
      ∃ fs2, create_session env now mt shortname provider model sysprompt messages
          requested genId fs = .ok (requested.getD genId, fs2) ∧
        (sessionsLookup fs2 (requested.getD genId)).isSome = true) ∧
    (∀ session id fs,
      rowGet session "id" = some (JVal.jstr id) →
      validSessionId id = true →
      ∃ s2 fs2, save_session env now mt session fs = .ok (s2, fs2) ∧
        (sessionsLookup fs2 id).isSome = true) := by
  constructor
  · intro shortname provider model sysprompt messages requested genId fs hvalid hfresh
    have hv : (validSessionId (requested.getD genId) = false) = False := by
      simp [hvalid]
    have hex : ((sessionsLookup fs (requested.getD genId)).isSome = true) = False := by
      simp [hfresh]
    refine ⟨set_latest_session env (requested.getD genId)
      (writeSession fs (requested.getD genId) mt
        (createDoc now (requested.getD genId) shortname provider model sysprompt
          messages)), ?_, ?_⟩
    · simp only [create_session, hv, if_false, hex]
    · rw [sessionsLookup_congr (set_latest_sessions env _ _) _]
      rw [sessionsLookup_writeSession_self]
      rfl
  · intro session id fs hid hvalid
    have hz : (id = "") = False := by
      simp [valid_ne_empty id hvalid]
    have hv : (validSessionId id = false) = False := by
      simp [hvalid]
    refine ⟨dictSet session "updated_at" (JVal.jstr now),
      set_latest_session env id (writeSession fs id mt
        (JVal.jobj (dictSet session "updated_at" (JVal.jstr now)))), ?_, ?_⟩
    · simp only [save_session, hid, hz, if_false, hv]
    · rw [sessionsLookup_congr (set_latest_sessions env _ _) _]
      rw [sessionsLookup_writeSession_self]
      rfl

/-- Witness for C10 with both pointer mechanisms failing. -/
theorem claim_C10_witness :
    ∃ fs2, create_session ⟨false, false⟩ "T" 1 "m" "p" "mod" none (JVal.jarr [])
        (some "s1") "gen" ⟨[], .missing⟩ = .ok ("s1", fs2) ∧
      (sessionsLookup fs2 "s1").isSome = true :=
  (claim_C10_pointer_failures_never_propagate ⟨false, false⟩ "T" 1).1
    "m" "p" "mod" none (JVal.jarr []) (some "s1") "gen" ⟨[], .missing⟩
    (by decide) rfl

end MQ
